import Mathlib

/-!
# SMPP PDU codec (go-smpp, package `smpp/pdu`)

A shallow embedding of `smpp/pdu/codec.go`, `smpp/pdu/types.go` and
`smpp/pdu/pdutlv/tlv_types.go`, and theorems about it.

Conventions of the embedding:

* an octet is a `Fin 256`; a Go `[]byte` is a `List Byte`;
* an `io.Writer` is the list of octets written to it so far, a writing
  operation returns the extended list;
* an `io.Reader` / `bytes.Buffer` that is read from is the list of octets not
  yet consumed, a reading operation returns the shortened list;
* Go `uint32` values are natural numbers and every operation that can wrap
  carries its `% 2 ^ 32` explicitly; conversions `uint16(n)` are `n % 65536`;
* a Go `map` is an association list whose keys are pairwise different; the
  order of the list is the order in which `range` happens to visit the map,
  which Go leaves unspecified, so nothing may be assumed about it.
-/

namespace Smpp

/-! ## Octets and `encoding/binary` -/

/-- One octet. -/
abbrev Byte := Fin 256

/-- The low octet of a number: the Go conversion `byte(n)`. -/
def byte (n : Nat) : Byte := ⟨n % 256, Nat.mod_lt n (by decide)⟩

/-- Go `binary.BigEndian.PutUint16(b, uint16(n))`: the two octets stored. -/
def PutUint16 (n : Nat) : List Byte := [byte (n % 65536 / 256), byte (n % 65536)]

/-- Go `binary.BigEndian.Uint16` of the two octets `b0 b1`. -/
def Uint16 (b0 b1 : Byte) : Nat := b0.val * 256 + b1.val

/-- Go `binary.BigEndian.PutUint32(b, uint32(n))`: the four octets stored. -/
def PutUint32 (n : Nat) : List Byte :=
  [byte (n % 4294967296 / 16777216), byte (n % 4294967296 / 65536),
   byte (n % 4294967296 / 256), byte (n % 4294967296)]

/-- Go `binary.BigEndian.Uint32` of the four octets `b0 b1 b2 b3`. -/
def Uint32 (b0 b1 b2 b3 : Byte) : Nat :=
  b0.val * 16777216 + b1.val * 65536 + b2.val * 256 + b3.val

/-- Errors returned by the codec. `EOF` and `ErrUnexpectedEOF` are the two
errors of `io.ReadFull`; `headerTruncated` is the failure of the header
decoder; `unknownPDU` and `notImplemented` are the two
`fmt.Errorf` values built by `Decode`; `tlvTruncated` is the failure of the
TLV decoder; `field` wraps whatever the mandatory-field decoder reports. -/
inductive Error where
  | EOF
  | ErrUnexpectedEOF
  | headerTruncated
  | field (msg : String)
  | tlvTruncated
  | unknownPDU (id : Nat)
  | notImplemented (id : Nat)
deriving DecidableEq, Repr

/-! ## Package `pdutlv` (`tlv_types.go`) -/

namespace pdutlv

/-- Go `type Tag uint16`. -/
abbrev Tag := Fin 65536

/-- Go `type Field struct { Tag Tag; Data []byte }`. -/
structure Field where
  Tag : Tag
  Data : List Byte
deriving DecidableEq, Repr

/-- Go `func (t *Field) Bytes() []byte`. -/
def Field.Bytes (t : Field) : List Byte := t.Data

/-- Go `func (t *Field) Len() int`. -/
def Field.Len (t : Field) : Nat := t.Bytes.length + 4

/-- Go `func (t *Field) SerializeTo(w io.Writer) error`, for a writer that
accepts the octets: a buffer of `len(t.Data)+4` octets is filled with the tag,
`uint16(len(t.Data))` and the data, and written to `w`. -/
def Field.SerializeTo (t : Field) (w : List Byte) : List Byte :=
  w ++ (PutUint16 t.Tag.val ++ PutUint16 t.Data.length ++ t.Data)

/-- Go `type string`, for the strings that `Tag.Hex` and `Tag.String` return. -/
abbrev GoString := String

/-- Go `func (t *Field) String() string`; the Go string is the list of its
octets. -/
def Field.String (t : Field) : List Byte :=
  let l := t.Data.length
  if 0 < l ∧ t.Data[l - 1]? = some 0 then t.Data.take (l - 1)
  else t.Data

/-- The digit that `encoding/hex` writes for the value `n % 16`. -/
def hexDigit (n : Nat) : Char :=
  ['0', '1', '2', '3', '4', '5', '6', '7', '8', '9', 'a', 'b', 'c', 'd', 'e', 'f'].getD
    (n % 16) '0'

/-- Go `hex.EncodeToString`, as the list of the characters: two digits for
every octet. -/
def hexChars : List Byte → List Char
  | [] => []
  | b :: bs => hexDigit (b.val / 16) :: hexDigit (b.val % 16) :: hexChars bs

/-- Go `func (t Tag) Hex() string`. -/
def Tag.Hex (t : Tag) : GoString := String.mk (hexChars (PutUint16 t.val))

/-! The common TLV tags (`const` block of `tlv_types.go`). -/

def TagDestAddrSubunit : Tag := 0x0005
def TagDestNetworkType : Tag := 0x0006
def TagDestBearerType : Tag := 0x0007
def TagDestTelematicsID : Tag := 0x0008
def TagSourceAddrSubunit : Tag := 0x000D
def TagSourceNetworkType : Tag := 0x000E
def TagSourceBearerType : Tag := 0x000F
def TagSourceTelematicsID : Tag := 0x0010
def TagQosTimeToLive : Tag := 0x0017
def TagPayloadType : Tag := 0x0019
def TagAdditionalStatusInfoText : Tag := 0x001D
def TagReceiptedMessageID : Tag := 0x001E
def TagMsMsgWaitFacilities : Tag := 0x0030
def TagPrivacyIndicator : Tag := 0x0201
def TagSourceSubaddress : Tag := 0x0202
def TagDestSubaddress : Tag := 0x0203
def TagUserMessageReference : Tag := 0x0204
def TagUserResponseCode : Tag := 0x0205
def TagSourcePort : Tag := 0x020A
def TagDestinationPort : Tag := 0x020B
def TagSarMsgRefNum : Tag := 0x020C
def TagLanguageIndicator : Tag := 0x020D
def TagSarTotalSegments : Tag := 0x020E
def TagSarSegmentSeqnum : Tag := 0x020F
def TagCallbackNumPresInd : Tag := 0x0302
def TagCallbackNumAtag : Tag := 0x0303
def TagNumberOfMessages : Tag := 0x0304
def TagCallbackNum : Tag := 0x0381
def TagDpfResult : Tag := 0x0420
def TagSetDpf : Tag := 0x0421
def TagMsAvailabilityStatus : Tag := 0x0422
def TagNetworkErrorCode : Tag := 0x0423
def TagMessagePayload : Tag := 0x0424
def TagDeliveryFailureReason : Tag := 0x0425
def TagMoreMessagesToSend : Tag := 0x0426
def TagMessageStateOption : Tag := 0x0427
def TagUssdServiceOp : Tag := 0x0501
def TagDisplayTime : Tag := 0x1201
def TagSmsSignal : Tag := 0x1203
def TagMsValidity : Tag := 0x1204
def TagAlertOnMessageDelivery : Tag := 0x130C
def TagItsReplyType : Tag := 0x1380
def TagItsSessionInfo : Tag := 0x1383

/-- The cases of the switch of `Tag.String`, in the order of the source: the
tag of the case and the string the case returns. -/
def Tag.cases : List (Tag × GoString) :=
  [
   (TagDestAddrSubunit, "dest_addr_subunit"),
   (TagDestNetworkType, "dest_network_type"),
   (TagDestBearerType, "dest_bearer_type"),
   (TagDestTelematicsID, "dest_telematics_id"),
   (TagSourceAddrSubunit, "source_addr_subunit"),
   (TagSourceNetworkType, "source_network_type"),
   (TagSourceBearerType, "source_bearer_type"),
   (TagSourceTelematicsID, "source_telematics_id"),
   (TagQosTimeToLive, "qos_time_to_live"),
   (TagPayloadType, "payload_type"),
   (TagAdditionalStatusInfoText, "additional_status_info_text"),
   (TagReceiptedMessageID, "receipted_message_id"),
   (TagMsMsgWaitFacilities, "ms_msg_wait_facilities"),
   (TagPrivacyIndicator, "privacy_indicator"),
   (TagSourceSubaddress, "source_subaddress"),
   (TagDestSubaddress, "dest_subaddress"),
   (TagUserMessageReference, "user_message_reference"),
   (TagUserResponseCode, "user_response_code"),
   (TagSourcePort, "source_port"),
   (TagDestinationPort, "destination_port "),
   (TagSarMsgRefNum, "sar_msg_ref_num"),
   (TagLanguageIndicator, "language_indicator"),
   (TagSarTotalSegments, "sar_total_segments"),
   (TagSarSegmentSeqnum, "sar_segment_seqnum"),
   (TagCallbackNumPresInd, "callback_num_pres_ind"),
   (TagCallbackNumAtag, "callback_num_atag"),
   (TagNumberOfMessages, "number_of_messages"),
   (TagCallbackNum, "callback_num"),
   (TagDpfResult, "dpf_result"),
   (TagSetDpf, "set_dpf"),
   (TagMsAvailabilityStatus, "ms_availablity_status"),
   (TagNetworkErrorCode, "network_error_code"),
   (TagMessagePayload, "message_payload"),
   (TagDeliveryFailureReason, "delivery_failure_reason"),
   (TagMoreMessagesToSend, "more_messages_to_send"),
   (TagMessageStateOption, "message_state"),
   (TagUssdServiceOp, "ussd_service_op"),
   (TagDisplayTime, "display_time"),
   (TagSmsSignal, "sms_signal"),
   (TagMsValidity, "ms_validity"),
   (TagAlertOnMessageDelivery, "alert_on_message_delivery"),
   (TagItsReplyType, "its_reply_type"),
   (TagItsSessionInfo, "its_session_info")]

/-- Go `func (t Tag) String() string`: the string of the first case of the
switch whose tag is `t`, and `t.Hex()` in the default case. -/
def Tag.String (t : Tag) : GoString :=
  match Tag.cases.find? (fun c => c.1 = t) with
  | some c => c.2
  | none => Tag.Hex t

/-- Modelled from the spec: `pdutlv.Map`, the Go map `Tag → Field` of package
pdutlv, whose source is not among the files embedded here ("TLVMap:
Tag→TLVField"). The keys of the list are pairwise different and the order of
the list is the order in which `range` visits the map. -/
abbrev Map := List (Tag × Field)

/-- Modelled from the spec: the map read `m[k]`. -/
def Map.lookup : Map → Tag → Option Field
  | [], _ => none
  | (k1, v) :: m, k => if k1 = k then some v else Map.lookup m k

/-- Modelled from the spec: the map write `m[k] = v`; an existing entry is
replaced in place, a new key is added. -/
def Map.Set : Map → Tag → Field → Map
  | [], k, v => [(k, v)]
  | (k1, v1) :: m, k, v => if k1 = k then (k, v) :: m else (k1, v1) :: Map.Set m k v

/-- Modelled from the spec: the loop of `DecodeTLV`, whose source is not among
the files embedded here: "read 2-byte tag, 2-byte length, then that many
payload bytes; stop when the body is exhausted. Fails with TLVTruncated if
fewer than 4 header bytes remain or the payload is shorter than declared."
Every round consumes at least four octets, so `fuel` rounds are enough for an
input of at most `4 * fuel` octets. -/
def DecodeTLVLoop : Nat → List Byte → Map → Except Error Map
  | _, [], t => .ok t
  | 0, _ :: _, _ => .error .tlvTruncated
  | fuel + 1, t0 :: t1 :: l0 :: l1 :: r, t =>
      let ft : Tag := ⟨Uint16 t0 t1 % 65536, Nat.mod_lt _ (by decide)⟩
      let fl := Uint16 l0 l1
      if r.length < fl then .error .tlvTruncated
      else DecodeTLVLoop fuel (r.drop fl) (Map.Set t ft ⟨ft, r.take fl⟩)
  | _ + 1, _ :: _, _ => .error .tlvTruncated

/-- Modelled from the spec: `pdutlv.DecodeTLV(r)`, started on the empty map. -/
def DecodeTLV (r : List Byte) : Except Error Map :=
  DecodeTLVLoop r.length r []

end pdutlv

/-! ## Package `pdufield` (not among the embedded files) -/

namespace pdufield

/-- Go `type Name string`: the field names that occur in the field tables of
`types.go`. -/
inductive Name where
  | SystemID | Password | SystemType | InterfaceVersion | AddrTON | AddrNPI
  | AddressRange | MessageID | SourceAddrTON | SourceAddrNPI | SourceAddr
  | FinalDate | MessageState | ErrorCode | ServiceType | DestAddrTON
  | DestAddrNPI | DestinationAddr | ESMClass | ProtocolID | PriorityFlag
  | ScheduleDeliveryTime | ValidityPeriod | RegisteredDelivery
  | ReplaceIfPresentFlag | DataCoding | SMDefaultMsgID | SMLength
  | ShortMessage | NumberDests | DestinationList | NoUnsuccess | UnsuccessSme
deriving DecidableEq, Repr

/-- Modelled from the spec: a value of the `pdufield.Body` interface, whose
source is not among the files embedded here. "Field encodings: fixed-width
integers (1/2/4 bytes); null-terminated strings (payload bytes plus one
trailing 0x00); length-governed blobs (size given by a preceding field);
fixed-size blobs." -/
inductive Body where
  | fixedInt (width : Nat) (value : Nat)
  | cstring (data : List Byte)
  | governedBlob (data : List Byte)
  | fixedBlob (data : List Byte)
deriving DecidableEq, Repr

/-- The `width` low octets of `v`, most significant first. -/
def bigEndian : Nat → Nat → List Byte
  | 0, _ => []
  | w + 1, v => bigEndian w (v / 256) ++ [byte v]

/-- Modelled from the spec: `Body.Len()`, the encoded length a field value
reports. -/
def Body.Len : Body → Nat
  | .fixedInt w _ => w
  | .cstring d => d.length + 1
  | .governedBlob d => d.length
  | .fixedBlob d => d.length

/-- Modelled from the spec: `Body.SerializeTo(w)`, for a writer that accepts
the octets. -/
def Body.SerializeTo : Body → List Byte → List Byte
  | .fixedInt wd v, w => w ++ bigEndian wd v
  | .cstring d, w => w ++ (d ++ [0])
  | .governedBlob d, w => w ++ d
  | .fixedBlob d, w => w ++ d

/-- Modelled from the spec: whether the field value is an "empty/zero
placeholder": the integer zero, the empty string, the empty blob, or a fixed
blob of zero octets. -/
def Body.isPlaceholder : Body → Bool
  | .fixedInt _ v => v == 0
  | .cstring d => d.isEmpty
  | .governedBlob d => d.isEmpty
  | .fixedBlob d => d.all (fun x => x == 0)

/-- Modelled from the spec: `pdufield.Map`, the Go map `Name → Body`
("FieldMap: name→Field value"). The keys of the list are pairwise different
and the order of the list is the order in which `range` visits the map. -/
abbrev Map := List (Name × Body)

/-- Modelled from the spec: the map read `m[k]`. -/
def Map.lookup : Map → Name → Option Body
  | [], _ => none
  | (k1, v) :: m, k => if k1 = k then some v else Map.lookup m k

/-- Modelled from the spec: the map write `m[k] = v`; an existing entry is
replaced in place, a new key is added. -/
def Map.Set : Map → Name → Body → Map
  | [], k, v => [(k, v)]
  | (k1, v1) :: m, k, v => if k1 = k then (k, v) :: m else (k1, v1) :: Map.Set m k v

end pdufield

/-- Modelled from the spec: the two operations of package pdufield that the
codec calls and whose source is not among the files embedded here. `New k` is
the value that `Map.Set(k, nil)` stores for the name `k` ("synthesize an
empty/zero placeholder"); `Decode l r` is `List.Decode`, which consumes the
mandatory fields named by `l` from `r` and returns the decoded map and the
octets that are left, or fails. -/
structure FieldPkg where
  New : pdufield.Name → pdufield.Body
  Decode : List pdufield.Name → List Byte → Except String (pdufield.Map × List Byte)

/-! ## Package `pdu`: header -/

namespace pdu

/-- Modelled from the spec: `pdu.Header`, whose source is not among the files
embedded here: "{CommandLength: u32, CommandID: u32, CommandStatus: u32,
SequenceNumber: u32}", with the Go field names used by `codec.go`. -/
structure Header where
  Len : Nat
  ID : Nat
  Status : Nat
  Seq : Nat
deriving DecidableEq, Repr

/-- Go constant `HeaderLen`: the size of the frame header. -/
def HeaderLen : Nat := 16

/-- Modelled from the spec: `Header.SerializeTo(w)`: "writes the four
big-endian 32-bit fields in fixed order: length, id, status, seq". -/
def Header.SerializeTo (h : Header) (w : List Byte) : List Byte :=
  w ++ (PutUint32 h.Len ++ PutUint32 h.ID ++ PutUint32 h.Status ++ PutUint32 h.Seq)

/-- Modelled from the spec: `DecodeHeader(r)`: "Header | HeaderTruncated if
fewer than 16 bytes are available". Returns the header and the reader after
the sixteen octets. -/
def DecodeHeader : List Byte → Except Error (Header × List Byte)
  | l0 :: l1 :: l2 :: l3 :: i0 :: i1 :: i2 :: i3 ::
    s0 :: s1 :: s2 :: s3 :: q0 :: q1 :: q2 :: q3 :: r =>
      .ok (⟨Uint32 l0 l1 l2 l3, Uint32 i0 i1 i2 i3, Uint32 s0 s1 s2 s3, Uint32 q0 q1 q2 q3⟩, r)
  | _ => .error .headerTruncated

/-- Go `io.ReadFull(r, buf)` for a buffer of `n` octets: the buffer after the
call, the error and the reader after the call. A short reader is drained and
the rest of the buffer keeps its zero octets. -/
def ReadFull (r : List Byte) (n : Nat) : List Byte × Option Error × List Byte :=
  if n ≤ r.length then (r.take n, none, r.drop n)
  else (r ++ List.replicate (n - r.length) 0,
        some (if r.length = 0 then Error.EOF else Error.ErrUnexpectedEOF), [])

/-! ## PDU types (`types.go`) -/

def GenericNACKID : Nat := 0x80000000
def BindReceiverID : Nat := 0x00000001
def BindReceiverRespID : Nat := 0x80000001
def BindTransmitterID : Nat := 0x00000002
def BindTransmitterRespID : Nat := 0x80000002
def QuerySMID : Nat := 0x00000003
def QuerySMRespID : Nat := 0x80000003
def SubmitSMID : Nat := 0x00000004
def SubmitSMRespID : Nat := 0x80000004
def DeliverSMID : Nat := 0x00000005
def DeliverSMRespID : Nat := 0x80000005
def UnbindID : Nat := 0x00000006
def UnbindRespID : Nat := 0x80000006
def ReplaceSMID : Nat := 0x00000007
def ReplaceSMRespID : Nat := 0x80000007
def CancelSMID : Nat := 0x00000008
def CancelSMRespID : Nat := 0x80000008
def BindTransceiverID : Nat := 0x00000009
def BindTransceiverRespID : Nat := 0x80000009
def OutbindID : Nat := 0x0000000B
def EnquireLinkID : Nat := 0x00000015
def EnquireLinkRespID : Nat := 0x80000015
def SubmitMultiID : Nat := 0x00000021
def SubmitMultiRespID : Nat := 0x80000021
def AlertNotificationID : Nat := 0x00000102
def DataSMID : Nat := 0x00000103
def DataSMRespID : Nat := 0x80000103

/-- The 27 `ID` constants of `types.go`, in the order of the source. -/
def allIDs : List Nat :=
  [GenericNACKID, BindReceiverID, BindReceiverRespID, BindTransmitterID,
   BindTransmitterRespID, QuerySMID, QuerySMRespID, SubmitSMID, SubmitSMRespID,
   DeliverSMID, DeliverSMRespID, UnbindID, UnbindRespID, ReplaceSMID,
   ReplaceSMRespID, CancelSMID, CancelSMRespID, BindTransceiverID,
   BindTransceiverRespID, OutbindID, EnquireLinkID, EnquireLinkRespID,
   SubmitMultiID, SubmitMultiRespID, AlertNotificationID, DataSMID, DataSMRespID]

/-! ## The codec (`codec.go`) -/

/-- Go `type Codec struct { h *Header; l pdufield.List; f pdufield.Map;
t pdutlv.Map }`. A nil list or map and an empty one are both the empty list:
the code reads them alike. The one statement that tells a nil map from an
empty one is the write to the field map in `SerializeTo`; the nil map is made
explicit for it in `Codec.SerializeToNil`. -/
structure Codec where
  h : Header
  l : List pdufield.Name
  f : pdufield.Map
  t : pdutlv.Map
deriving DecidableEq, Repr

/-- Go `func (pdu *Codec) Init()`. The first component is the process-wide
counter `nextSeq` after the call; `atomic.AddUint32(&nextSeq, 1)` adds one
modulo `2 ^ 32` and returns the new value. -/
def Codec.Init (nextSeq : Nat) (pdu : Codec) : Nat × Codec :=
  let pdu1 : Codec := if pdu.l = [] then { pdu with l := [] } else pdu
  let pdu2 : Codec := { pdu1 with f := [] }
  let pdu3 : Codec := { pdu2 with t := [] }
  if pdu3.h.Seq = 0 then
    let n := (nextSeq + 1) % 4294967296
    (n, { pdu3 with h := { pdu3.h with Seq := n } })
  else (nextSeq, pdu3)

/-- Go `func (pdu *Codec) Setup(f pdufield.Map, t pdutlv.Map)`. -/
def Codec.Setup (pdu : Codec) (f : pdufield.Map) (t : pdutlv.Map) : Codec :=
  { pdu with f := f, t := t }

/-- Go `func (pdu *Codec) Header() *Header`. -/
def Codec.Header (pdu : Codec) : Header := pdu.h

/-- Go `func (pdu *Codec) Len() int`: both loops range over the maps. -/
def Codec.Len (pdu : Codec) : Nat :=
  let l := HeaderLen
  let l := pdu.f.foldl (fun l kv => l + kv.2.Len) l
  let l := pdu.t.foldl (fun l kv => l + kv.2.Len) l
  l

/-- Go `func (pdu *Codec) FieldList() pdufield.List`. -/
def Codec.FieldList (pdu : Codec) : List pdufield.Name := pdu.l

/-- Go `func (pdu *Codec) Fields() pdufield.Map`. -/
def Codec.Fields (pdu : Codec) : pdufield.Map := pdu.f

/-- Go `func (pdu *Codec) TLVFields() pdutlv.Map`. -/
def Codec.TLVFields (pdu : Codec) : pdutlv.Map := pdu.t

/-- The first loop of `Codec.SerializeTo`: for each name `k` of the field list
the value `pdu.f[k]` is written to the staging buffer `b`; a missing value is
first stored by `pdu.f.Set(k, nil)` and then read back. Returns the map and
the buffer after the loop. -/
def Codec.serializeFieldLoop (P : FieldPkg) :
    List pdufield.Name → pdufield.Map → List Byte → pdufield.Map × List Byte
  | [], f, b => (f, b)
  | k :: ks, f, b =>
      match pdufield.Map.lookup f k with
      | some v => Codec.serializeFieldLoop P ks f (v.SerializeTo b)
      | none =>
          let f1 := pdufield.Map.Set f k (P.New k)
          Codec.serializeFieldLoop P ks f1 ((P.New k).SerializeTo b)

/-- The second loop of `Codec.SerializeTo`: every entry of the TLV map, in the
order of the `range`, is written to the staging buffer. -/
def Codec.serializeTLVLoop : pdutlv.Map → List Byte → List Byte
  | [], b => b
  | (_, f) :: t, b => Codec.serializeTLVLoop t (f.SerializeTo b)

/-- The staging buffer `b` of `Codec.SerializeTo` after both loops: the body of
the frame. -/
def Codec.body (P : FieldPkg) (pdu : Codec) : List Byte :=
  Codec.serializeTLVLoop pdu.TLVFields
    (Codec.serializeFieldLoop P pdu.FieldList pdu.f []).2

/-- Go `func (pdu *Codec) SerializeTo(w io.Writer) error`, for a codec whose
field map is allocated (as `Init` leaves it) and a writer that accepts the
octets. Returns the codec after the call (the placeholders stored in the field
map, `h.Len` set to `uint32(pdu.Len())`) and the writer after the call. The
call on a codec whose field map is still nil is `Codec.SerializeToNil`. -/
def Codec.SerializeTo (P : FieldPkg) (pdu : Codec) (w : List Byte) : Codec × List Byte :=
  let fb := Codec.serializeFieldLoop P pdu.FieldList pdu.f []
  let pdu1 : Codec := { pdu with f := fb.1 }
  let b := Codec.serializeTLVLoop pdu1.TLVFields fb.2
  let pdu2 : Codec := { pdu1 with h := { pdu1.h with Len := pdu1.Len % 4294967296 } }
  let w1 := pdu2.h.SerializeTo w
  (pdu2, w1 ++ b)

/-- The first loop of `Codec.SerializeTo` on the Go value of the field map:
`none` is the nil map that a shell of `types.go` carries until `Init` or
`Setup` installs a map, `some f` is an allocated map. The read `pdu.f[k]` of
the nil map finds no value, and the write to the nil map in
`pdu.f.Set(k, nil)` is the run-time panic "assignment to entry in nil map":
the result `none`. On an allocated map the steps are those of
`Codec.serializeFieldLoop`. -/
def Codec.serializeFieldLoopNil (P : FieldPkg) :
    List pdufield.Name → Option pdufield.Map → List Byte →
      Option (pdufield.Map × List Byte)
  | [], f, b => some (f.getD [], b)
  | _ :: _, none, _ => none
  | k :: ks, some f, b =>
      match pdufield.Map.lookup f k with
      | some v => Codec.serializeFieldLoopNil P ks (some f) (v.SerializeTo b)
      | none =>
          let f1 := pdufield.Map.Set f k (P.New k)
          Codec.serializeFieldLoopNil P ks (some f1) ((P.New k).SerializeTo b)

/-- Go `func (pdu *Codec) SerializeTo(w io.Writer) error` on a codec whose
field map may be nil, for a writer that accepts the octets: `fnil` says that
`pdu.f` is the nil map (which has no entry). The result `none` is the panic of
the write to the nil map; otherwise the result is the codec and the writer
after the call, as in `Codec.SerializeTo`. -/
def Codec.SerializeToNil (P : FieldPkg) (fnil : Bool) (pdu : Codec) (w : List Byte) :
    Option (Codec × List Byte) :=
  match Codec.serializeFieldLoopNil P pdu.FieldList (if fnil then none else some pdu.f) [] with
  | none => none
  | some fb =>
      let pdu1 : Codec := { pdu with f := fb.1 }
      let b := Codec.serializeTLVLoop pdu1.TLVFields fb.2
      let pdu2 : Codec := { pdu1 with h := { pdu1.h with Len := pdu1.Len % 4294967296 } }
      let w1 := pdu2.h.SerializeTo w
      some (pdu2, w1 ++ b)

/-! ## Constructors of the PDU shells (`types.go`)

The `raw` argument of the constructors of `types.go` is stored in a field `r`
that the `Codec` struct of `codec.go` does not have, and `Decode` calls the
constructors with the header alone; the shells below take the header alone. -/

open pdufield.Name in
/-- Go `newGenericNACK`. -/
def newGenericNACK (hdr : Header) : Codec := { h := hdr, l := [], f := [], t := [] }

open pdufield.Name in
/-- Go `newBind`. -/
def newBind (hdr : Header) : Codec :=
  { h := hdr,
    l := [SystemID, Password, SystemType, InterfaceVersion, AddrTON, AddrNPI, AddressRange],
    f := [], t := [] }

open pdufield.Name in
/-- Go `newBindResp`. -/
def newBindResp (hdr : Header) : Codec := { h := hdr, l := [SystemID], f := [], t := [] }

open pdufield.Name in
/-- Go `newQuerySM`. -/
def newQuerySM (hdr : Header) : Codec :=
  { h := hdr, l := [MessageID, SourceAddrTON, SourceAddrNPI, SourceAddr], f := [], t := [] }

open pdufield.Name in
/-- Go `newQuerySMResp`. -/
def newQuerySMResp (hdr : Header) : Codec :=
  { h := hdr, l := [MessageID, FinalDate, MessageState, ErrorCode], f := [], t := [] }

open pdufield.Name in
/-- Go `newSubmitSM`. -/
def newSubmitSM (hdr : Header) : Codec :=
  { h := hdr,
    l := [ServiceType, SourceAddrTON, SourceAddrNPI, SourceAddr, DestAddrTON, DestAddrNPI,
          DestinationAddr, ESMClass, ProtocolID, PriorityFlag, ScheduleDeliveryTime,
          ValidityPeriod, RegisteredDelivery, ReplaceIfPresentFlag, DataCoding,
          SMDefaultMsgID, SMLength, ShortMessage],
    f := [], t := [] }

open pdufield.Name in
/-- Go `newSubmitSMResp`. -/
def newSubmitSMResp (hdr : Header) : Codec := { h := hdr, l := [MessageID], f := [], t := [] }

open pdufield.Name in
/-- Go `newSubmitMulti`. -/
def newSubmitMulti (hdr : Header) : Codec :=
  { h := hdr,
    l := [ServiceType, SourceAddrTON, SourceAddrNPI, SourceAddr, NumberDests, DestinationList,
          ESMClass, ProtocolID, PriorityFlag, ScheduleDeliveryTime, ValidityPeriod,
          RegisteredDelivery, ReplaceIfPresentFlag, DataCoding, SMDefaultMsgID, SMLength,
          ShortMessage],
    f := [], t := [] }

open pdufield.Name in
/-- Go `newSubmitMultiResp`. -/
def newSubmitMultiResp (hdr : Header) : Codec :=
  { h := hdr, l := [MessageID, NoUnsuccess, UnsuccessSme], f := [], t := [] }

open pdufield.Name in
/-- Go `newDeliverSM`. -/
def newDeliverSM (hdr : Header) : Codec :=
  { h := hdr,
    l := [ServiceType, SourceAddrTON, SourceAddrNPI, SourceAddr, DestAddrTON, DestAddrNPI,
          DestinationAddr, ESMClass, ProtocolID, PriorityFlag, ScheduleDeliveryTime,
          ValidityPeriod, RegisteredDelivery, ReplaceIfPresentFlag, DataCoding,
          SMDefaultMsgID, SMLength, ShortMessage],
    f := [], t := [] }

open pdufield.Name in
/-- Go `newDeliverSMResp`. -/
def newDeliverSMResp (hdr : Header) : Codec := { h := hdr, l := [MessageID], f := [], t := [] }

/-- Modelled from the spec: `NewCodec(hdr, l, raw)`, whose source is not among
the files embedded here: a shell with the given header and field table. -/
def NewCodec (hdr : Header) (l : List pdufield.Name) : Codec :=
  { h := hdr, l := l, f := [], t := [] }

open pdufield.Name in
/-- Go `newDataSM`. -/
def newDataSM (hdr : Header) : Codec :=
  NewCodec hdr [ServiceType, SourceAddrTON, SourceAddrNPI, SourceAddr, DestAddrTON,
    DestAddrNPI, DestinationAddr, ESMClass, RegisteredDelivery, DataCoding]

open pdufield.Name in
/-- Go `newDataSMResp`. -/
def newDataSMResp (hdr : Header) : Codec := NewCodec hdr [MessageID]

/-- Go `newUnbind`. -/
def newUnbind (hdr : Header) : Codec := { h := hdr, l := [], f := [], t := [] }

/-- Go `newUnbindResp`. -/
def newUnbindResp (hdr : Header) : Codec := { h := hdr, l := [], f := [], t := [] }

/-- Go `newEnquireLink`. -/
def newEnquireLink (hdr : Header) : Codec := { h := hdr, l := [], f := [], t := [] }

/-- Go `newEnquireLinkResp`. -/
def newEnquireLinkResp (hdr : Header) : Codec := { h := hdr, l := [], f := [], t := [] }

/-- Go `NewGenericNACK()`; the first component is the counter after the call. -/
def NewGenericNACK (nextSeq : Nat) : Nat × Codec :=
  (newGenericNACK { Len := 0, ID := GenericNACKID, Status := 0, Seq := 0 }).Init nextSeq

/-- Go `NewBindReceiverResp()`; the first component is the counter after the
call. -/
def NewBindReceiverResp (nextSeq : Nat) : Nat × Codec :=
  (newBindResp { Len := 0, ID := BindReceiverRespID, Status := 0, Seq := 0 }).Init nextSeq

/-- Go `NewDeliverSMRespSeq(seq)`. -/
def NewDeliverSMRespSeq (nextSeq : Nat) (seq : Nat) : Nat × Codec :=
  (newDeliverSMResp { Len := 0, ID := DeliverSMRespID, Status := 0, Seq := seq }).Init nextSeq

/-- Go `NewEnquireLinkRespSeq(seq)`. -/
def NewEnquireLinkRespSeq (nextSeq : Nat) (seq : Nat) : Nat × Codec :=
  (newEnquireLinkResp { Len := 0, ID := EnquireLinkRespID, Status := 0, Seq := seq }).Init nextSeq

/-! ## Decoding (`codec.go`) -/

/-- Go `func DecodeFields(pdu Decoder, b []byte) (Body, error)`: the maps are
installed by `Setup` after both decoders succeeded. -/
def DecodeFields (P : FieldPkg) (pdu : Codec) (b : List Byte) : Except Error Codec :=
  let l := pdu.FieldList
  match P.Decode l b with
  | .error e => .error (.field e)
  | .ok (f, r) =>
      match pdutlv.DecodeTLV r with
      | .error e => .error e
      | .ok t => .ok (pdu.Setup f t)

/-- The four named results of `Decode` (`none` is Go nil) and the reader after
the call. -/
structure DecodeResult where
  decoded : Option Codec
  header : Option Header
  raw : Option (List Byte)
  err : Option Error
  rest : List Byte
deriving DecidableEq, Repr

/-- The statement pair `decoded, err = DecodeFields(shell, raw); return` of
`Decode`. -/
def Decode.fields (P : FieldPkg) (shell : Codec) (header : Header) (raw rest : List Byte) :
    DecodeResult :=
  match DecodeFields P shell raw with
  | .ok pdu => ⟨some pdu, some header, some raw, none, rest⟩
  | .error e => ⟨none, some header, some raw, some e, rest⟩

/-- The `switch header.ID` statement of `Decode` and the statements after it,
for the header `header`, the body `raw` and the reader `r2` left after the
body. The cases are tried in the order of the source; a case with an empty
body leaves the switch and reaches the "PDU not implemented" error. -/
def Decode.switch (P : FieldPkg) (header : Header) (raw r2 : List Byte) : DecodeResult :=
  let id := header.ID
  let notImplemented : DecodeResult :=
    ⟨none, some header, some raw, some (.notImplemented id), r2⟩
  if id = AlertNotificationID then notImplemented
  else if id = BindReceiverID ∨ id = BindTransceiverID ∨ id = BindTransmitterID then
    Decode.fields P (newBind header) header raw r2
  else if id = BindReceiverRespID ∨ id = BindTransceiverRespID
      ∨ id = BindTransmitterRespID then
    Decode.fields P (newBindResp header) header raw r2
  else if id = CancelSMID then notImplemented
  else if id = CancelSMRespID then notImplemented
  else if id = DataSMID then notImplemented
  else if id = DataSMRespID then notImplemented
  else if id = DeliverSMID then Decode.fields P (newDeliverSM header) header raw r2
  else if id = DeliverSMRespID then Decode.fields P (newDeliverSMResp header) header raw r2
  else if id = EnquireLinkID then Decode.fields P (newEnquireLink header) header raw r2
  else if id = EnquireLinkRespID then
    Decode.fields P (newEnquireLinkResp header) header raw r2
  else if id = GenericNACKID then Decode.fields P (newGenericNACK header) header raw r2
  else if id = OutbindID then notImplemented
  else if id = QuerySMID then Decode.fields P (newQuerySM header) header raw r2
  else if id = QuerySMRespID then Decode.fields P (newQuerySMResp header) header raw r2
  else if id = ReplaceSMID then notImplemented
  else if id = ReplaceSMRespID then notImplemented
  else if id = SubmitMultiID then Decode.fields P (newSubmitMulti header) header raw r2
  else if id = SubmitMultiRespID then
    Decode.fields P (newSubmitMultiResp header) header raw r2
  else if id = SubmitSMID then Decode.fields P (newSubmitSM header) header raw r2
  else if id = SubmitSMRespID then Decode.fields P (newSubmitSMResp header) header raw r2
  else if id = UnbindID then Decode.fields P (newUnbind header) header raw r2
  else if id = UnbindRespID then Decode.fields P (newUnbindResp header) header raw r2
  else ⟨none, some header, some raw, some (.unknownPDU id), r2⟩

/-- The statements of `Decode` after `io.ReadFull(r, raw)`: `rf` holds the
buffer `raw`, the error of the read and the reader after the read. A failed
read returns at once; otherwise the command id is looked at. -/
def Decode.afterRead (P : FieldPkg) (header : Header) :
    List Byte × Option Error × List Byte → DecodeResult
  | (raw, some e, r2) => ⟨none, some header, some raw, some e, r2⟩
  | (raw, none, r2) => Decode.switch P header raw r2

/-- The statements of `Decode` after `DecodeHeader(r)` succeeded with `header`
and left the reader `r1`: `raw` is made with the `uint32` size
`header.Len-HeaderLen` and filled by `io.ReadFull`. -/
def Decode.readBody (P : FieldPkg) (header : Header) (r1 : List Byte) : DecodeResult :=
  Decode.afterRead P header
    (ReadFull r1 ((header.Len + 4294967296 - HeaderLen) % 4294967296))

/-- Go `func Decode(r io.Reader) (decoded Body, header *Header, raw []byte,
err error)`. The body is read before the command id is looked at. -/
def Decode (P : FieldPkg) (r : List Byte) : DecodeResult :=
  match DecodeHeader r with
  | .error e => ⟨none, none, none, some e, []⟩
  | .ok (header, r1) => Decode.readBody P header r1

end pdu

/-! ## Auxiliary definitions used in the statements -/

/-- The value of the big-endian u16 stored at octets 2 and 3 of `out`: the
length field of an encoded TLV entry. -/
def lengthFieldOf (out : List Byte) : Nat :=
  Uint16 (out.getD 2 0) (out.getD 3 0)

/-- The value of the big-endian u16 stored at octets 0 and 1 of `out`: the
tag field of an encoded TLV entry. -/
def tagFieldOf (out : List Byte) : Nat :=
  Uint16 (out.getD 0 0) (out.getD 1 0)

namespace pdu

/-- The calls `Init` on the messages of `ms`, one after the other, starting
with the counter `nextSeq`: the counter after the calls and the messages after
their initialisation. -/
def initAll : Nat → List Codec → Nat × List Codec
  | nextSeq, [] => (nextSeq, [])
  | nextSeq, m :: ms =>
      let r := m.Init nextSeq
      let rs := initAll r.1 ms
      (rs.1, r.2 :: rs.2)

/-- A field package for the examples: every placeholder is the empty
null-terminated string and the field decoder consumes nothing. -/
def examplePkg : FieldPkg where
  New := fun _ => pdufield.Body.cstring []
  Decode := fun _ r => .ok ([], r)

/-- The octets of the mandatory field `k` on the wire: the serialisation of
the value the field map `f` holds for `k`, or of the placeholder of `k` when
the map holds none. -/
def fieldBytes (P : FieldPkg) (f : pdufield.Map) (k : pdufield.Name) : List Byte :=
  match pdufield.Map.lookup f k with
  | some v => v.SerializeTo []
  | none => (P.New k).SerializeTo []

/-- The serialisations of the mandatory fields, concatenated in the order of
the field table `l`. -/
def tableOrderBytes (P : FieldPkg) (f : pdufield.Map) : List pdufield.Name → List Byte
  | [] => []
  | k :: ks => fieldBytes P f k ++ tableOrderBytes P f ks

/-- The encoded lengths of the entries of the field map `f` whose name is not
in the field table `l`, added up. -/
def unlistedLen (l : List pdufield.Name) : pdufield.Map → Nat
  | [] => 0
  | (k, v) :: f => (if k ∈ l then 0 else v.Len) + unlistedLen l f

/-- The serialisations of the entries of the TLV map, concatenated in the
order in which `range` visits them. -/
def tlvBytes : pdutlv.Map → List Byte
  | [] => []
  | (_, v) :: t => v.SerializeTo [] ++ tlvBytes t

/-- The pairs of a request id and the id of its response among the `ID`
constants of `types.go`. -/
def requestResponseIDs : List (Nat × Nat) :=
  [(BindReceiverID, BindReceiverRespID), (BindTransmitterID, BindTransmitterRespID),
   (QuerySMID, QuerySMRespID), (SubmitSMID, SubmitSMRespID), (DeliverSMID, DeliverSMRespID),
   (UnbindID, UnbindRespID), (ReplaceSMID, ReplaceSMRespID), (CancelSMID, CancelSMRespID),
   (BindTransceiverID, BindTransceiverRespID), (EnquireLinkID, EnquireLinkRespID),
   (SubmitMultiID, SubmitMultiRespID), (DataSMID, DataSMRespID)]

/-- The request ids among the `ID` constants of `types.go`: the ids that have a
response id, and the two ids without one. -/
def requestIDs : List Nat :=
  requestResponseIDs.map Prod.fst ++ [OutbindID, AlertNotificationID]

/-- The PDU type that each id names in `types.go`: the id that an exported
constructor `NewX` puts into the header, with the shell constructor `newX` that
it calls, for the ids that the switch of `Decode` dispatches. -/
def typeOfID : List (Nat × (Header → Codec)) :=
  [(GenericNACKID, newGenericNACK),
   (BindReceiverID, newBind), (BindTransceiverID, newBind), (BindTransmitterID, newBind),
   (BindReceiverRespID, newBindResp), (BindTransceiverRespID, newBindResp),
   (BindTransmitterRespID, newBindResp),
   (QuerySMID, newQuerySM), (QuerySMRespID, newQuerySMResp),
   (SubmitSMID, newSubmitSM), (SubmitSMRespID, newSubmitSMResp),
   (SubmitMultiID, newSubmitMulti), (SubmitMultiRespID, newSubmitMultiResp),
   (DeliverSMID, newDeliverSM), (DeliverSMRespID, newDeliverSMResp),
   (UnbindID, newUnbind), (UnbindRespID, newUnbindResp),
   (EnquireLinkID, newEnquireLink), (EnquireLinkRespID, newEnquireLinkResp)]

/-- The number of body octets that `Decode` requests for the header: the size
of the buffer `raw`, the `uint32` value `header.Len-HeaderLen`. -/
def Decode.bodySize (header : Header) : Nat :=
  (header.Len + 4294967296 - HeaderLen) % 4294967296

/-- Whether the character is a lowercase letter, a digit or an underscore. -/
def isNameChar (c : Char) : Bool := c.isLower || c.isDigit || c == '_'

/-- Whether the character is a lowercase hexadecimal digit. -/
def isHexChar (c : Char) : Bool := c.isDigit || (c.val ≥ 97 && c.val ≤ 102)

/-- Whether the name `a` stands immediately before the name `b` somewhere in
the field table. -/
def adjacent (a b : pdufield.Name) : List pdufield.Name → Bool
  | x :: y :: r => (decide (x = a) && decide (y = b)) || adjacent a b (y :: r)
  | _ => false

/-- The field tables of all the shells of `types.go`, in the order of the
source. -/
def fieldTables (hdr : Header) : List (List pdufield.Name) :=
  [(newGenericNACK hdr).l, (newBind hdr).l, (newBindResp hdr).l, (newQuerySM hdr).l,
   (newQuerySMResp hdr).l, (newSubmitSM hdr).l, (newSubmitSMResp hdr).l,
   (newSubmitMulti hdr).l, (newSubmitMultiResp hdr).l, (newDeliverSM hdr).l,
   (newDeliverSMResp hdr).l, (newDataSM hdr).l, (newDataSMResp hdr).l, (newUnbind hdr).l,
   (newUnbindResp hdr).l, (newEnquireLink hdr).l, (newEnquireLinkResp hdr).l]

end pdu

/-! ## Lemmas on the byte order functions -/

theorem Uint16_PutUint16 (n : Nat) (h : n < 65536) :
    Uint16 (byte (n % 65536 / 256)) (byte (n % 65536)) = n := by
  simp only [Uint16, byte]
  omega

theorem lengthFieldOf_cons (a b c d : Byte) (r : List Byte) :
    lengthFieldOf (a :: b :: c :: d :: r) = Uint16 c d := rfl

theorem PutUint16_length (n : Nat) : (PutUint16 n).length = 2 := rfl

theorem PutUint32_length (n : Nat) : (PutUint32 n).length = 4 := rfl

/-! ## TLV fields: layout and round trip -/

namespace pdutlv

theorem Field.SerializeTo_eq (t : Field) (w : List Byte) :
    t.SerializeTo w = w ++ (byte (t.Tag.val % 65536 / 256) :: byte (t.Tag.val % 65536) ::
      byte (t.Data.length % 65536 / 256) :: byte (t.Data.length % 65536) :: t.Data) := rfl

theorem DecodeTLVLoop_step (fuel : Nat) (t0 t1 l0 l1 : Byte) (r : List Byte) (t : Map) :
    DecodeTLVLoop (fuel + 1) (t0 :: t1 :: l0 :: l1 :: r) t =
      if r.length < Uint16 l0 l1 then .error .tlvTruncated
      else DecodeTLVLoop fuel (r.drop (Uint16 l0 l1))
        (Map.Set t ⟨Uint16 t0 t1 % 65536, Nat.mod_lt _ (by decide)⟩
          ⟨⟨Uint16 t0 t1 % 65536, Nat.mod_lt _ (by decide)⟩, r.take (Uint16 l0 l1)⟩) := rfl

theorem DecodeTLVLoop_nil (fuel : Nat) (t : Map) : DecodeTLVLoop fuel [] t = .ok t := by
  cases fuel <;> rfl

theorem Field.lengthField_of_length_65536 (t : Field) (h : t.Data.length = 65536) :
    lengthFieldOf (t.SerializeTo []) = 0 := by
  rw [Field.SerializeTo_eq, List.nil_append, lengthFieldOf_cons, h]
  simp [Uint16, byte]

/-- C4 (as amended): for every tag and every payload of fewer than 65536
octets, `Field.SerializeTo` appends exactly `Field.Len() = len(payload)+4`
octets to the writer: the tag as a big-endian u16, a big-endian u16 whose value
is the number of payload octets, then the payload verbatim. The octet count and
the position of the payload hold for every payload. -/
theorem Field.SerializeTo_layout (t : Field) (w : List Byte) (h : t.Data.length < 65536) :
    ∃ out, t.SerializeTo w = w ++ out ∧ out.length = t.Len ∧ t.Len = t.Data.length + 4 ∧
      out.take 2 = PutUint16 t.Tag.val ∧ tagFieldOf out = t.Tag.val ∧
      (out.drop 2).take 2 = PutUint16 t.Data.length ∧ lengthFieldOf out = t.Data.length ∧
      out.drop 4 = t.Data := by
  refine ⟨_, Field.SerializeTo_eq t w, ?_, rfl, rfl, ?_, rfl, ?_, rfl⟩
  · simp [Field.Len, Field.Bytes]
  · exact Uint16_PutUint16 _ t.Tag.isLt
  · exact Uint16_PutUint16 _ h

/-- Witness of `Field.SerializeTo_layout`: the tag 0x020B with the payload
`1F 90`. -/
theorem Field.SerializeTo_layout_witness :
    (2 : Nat) < 65536 ∧
    ∃ out, (Field.mk 0x020B [0x1F, 0x90]).SerializeTo [] = [] ++ out ∧
      out.length = (Field.mk 0x020B [0x1F, 0x90]).Len ∧
      (Field.mk 0x020B [0x1F, 0x90]).Len = 2 + 4 ∧
      out.take 2 = PutUint16 0x020B ∧ tagFieldOf out = 0x020B ∧
      (out.drop 2).take 2 = PutUint16 2 ∧ lengthFieldOf out = 2 ∧
      out.drop 4 = [0x1F, 0x90] :=
  ⟨by decide, Field.SerializeTo_layout (Field.mk 0x020B [0x1F, 0x90]) [] (by decide)⟩

/-- C4 (counterexample): for the payload of 65536 zero octets the u16 length
field that `Field.SerializeTo` writes is 0, not the number of payload
octets. -/
theorem Field.SerializeTo_length_field_wraps :
    lengthFieldOf ((Field.mk 5 (List.replicate 65536 0)).SerializeTo []) = 0 ∧
    (Field.mk 5 (List.replicate 65536 0)).Data.length = 65536 :=
  ⟨Field.lengthField_of_length_65536 _ (List.length_replicate _ _), List.length_replicate _ _⟩

theorem DecodeTLV_cons4 (t0 t1 l0 l1 : Byte) (r : List Byte) :
    DecodeTLV (t0 :: t1 :: l0 :: l1 :: r) =
      if r.length < Uint16 l0 l1 then .error .tlvTruncated
      else DecodeTLVLoop (r.length + 3) (r.drop (Uint16 l0 l1))
        [(⟨Uint16 t0 t1 % 65536, Nat.mod_lt _ (by decide)⟩,
          ⟨⟨Uint16 t0 t1 % 65536, Nat.mod_lt _ (by decide)⟩, r.take (Uint16 l0 l1)⟩)] := rfl

/-- C5 (as amended): for every tag, named or not, and every payload of fewer
than 65536 octets, zero octets included, the TLV decoder applied to the octets
written by `Field.SerializeTo` returns the map with exactly one entry, which
has the same tag and the same payload. -/
theorem DecodeTLV_SerializeTo (t : Field) (h : t.Data.length < 65536) :
    DecodeTLV (t.SerializeTo []) = .ok [(t.Tag, t)] := by
  have htag : Uint16 (byte (t.Tag.val % 65536 / 256)) (byte (t.Tag.val % 65536)) = t.Tag.val :=
    Uint16_PutUint16 _ t.Tag.isLt
  have hlen : Uint16 (byte (t.Data.length % 65536 / 256)) (byte (t.Data.length % 65536))
      = t.Data.length := Uint16_PutUint16 _ h
  have hfin : (⟨t.Tag.val % 65536, Nat.mod_lt _ (by decide)⟩ : Tag) = t.Tag :=
    Fin.ext (Nat.mod_eq_of_lt t.Tag.isLt)
  rw [Field.SerializeTo_eq, List.nil_append, DecodeTLV_cons4]
  simp only [htag, hlen, hfin, Nat.lt_irrefl, if_false, List.drop_length, List.take_length,
    DecodeTLVLoop_nil]

/-- Witness of `DecodeTLV_SerializeTo`: the unnamed tag 0x9999 with a payload
that holds zero octets. -/
theorem DecodeTLV_SerializeTo_witness :
    (3 : Nat) < 65536 ∧
    DecodeTLV ((Field.mk 0x9999 [0x41, 0x00, 0x00]).SerializeTo [])
      = .ok [(0x9999, Field.mk 0x9999 [0x41, 0x00, 0x00])] :=
  ⟨by decide, DecodeTLV_SerializeTo (Field.mk 0x9999 [0x41, 0x00, 0x00]) (by decide)⟩

theorem DecodeTLV_SerializeTo_long (t : Field) (d : List Byte)
    (hd : t.Data = 0 :: 1 :: 255 :: 255 :: d) (hl : d.length = 65532) :
    DecodeTLV (t.SerializeTo []) = .error .tlvTruncated := by
  have h1 : t.Data.length = 65536 := by rw [hd]; simp [hl]
  rw [Field.SerializeTo_eq, List.nil_append, DecodeTLV_cons4, h1, hd]
  have h2 : Uint16 (byte (65536 % 65536 / 256)) (byte (65536 % 65536)) = 0 := by
    simp [Uint16, byte]
  rw [h2]
  simp only [Nat.not_lt_zero, if_false, List.drop_zero]
  rw [DecodeTLVLoop_step]
  have h3 : Uint16 (255 : Byte) (255 : Byte) = 65535 := by decide
  rw [h3, hl]
  simp

/-- C5 (counterexample): the tag 0x9999 with the payload `00 01 FF FF`
followed by 65532 zero octets (65536 octets in all) does not survive the round
trip: the length field is written as 0, the payload is read as further TLV
entries, and the decoder fails on the entry `00 01 FF FF`. -/
theorem DecodeTLV_SerializeTo_long_payload :
    DecodeTLV ((Field.mk 0x9999 (0 :: 1 :: 255 :: 255 :: List.replicate 65532 0)).SerializeTo [])
      = .error .tlvTruncated :=
  DecodeTLV_SerializeTo_long _ (List.replicate 65532 0) rfl (List.length_replicate _ _)

end pdutlv

/-! ## Sequence numbers: `Codec.Init` -/

namespace pdu

theorem Codec.Init_eq (nextSeq : Nat) (pdu : Codec) :
    pdu.Init nextSeq =
      if pdu.h.Seq = 0 then
        ((nextSeq + 1) % 4294967296,
          { h := { pdu.h with Seq := (nextSeq + 1) % 4294967296 }, l := pdu.l, f := [], t := [] })
      else (nextSeq, { h := pdu.h, l := pdu.l, f := [], t := [] }) := by
  have h1 : (if pdu.l = [] then { pdu with l := [] } else pdu) = pdu := by
    split
    · next h => cases pdu; simp_all
    · rfl
  unfold Codec.Init
  simp only [h1]

/-- C6 (counterexample): when the counter holds `2 ^ 32 - 1` the increment
wraps to 0, and `Init` leaves a message whose sequence number is 0 with the
sequence number 0. -/
theorem Init_seq_zero_at_wraparound :
    ((newGenericNACK ⟨0, GenericNACKID, 0, 0⟩).Init 4294967295).2.h.Seq = 0 := by
  decide

/-- C6 (as amended): for every state of the sequence counter other than
`2 ^ 32 - 1` and every message, `Init` on a message whose sequence number is 0
leaves it with a non-zero sequence number (the counter plus one, which is also
the new counter); for every state of the counter, `Init` on a message whose
sequence number is non-zero leaves that number unchanged and does not advance
the counter. -/
theorem Init_seq (nextSeq : Nat) (pdu : Codec) :
    (nextSeq < 4294967295 → pdu.h.Seq = 0 →
      (pdu.Init nextSeq).2.h.Seq ≠ 0 ∧ (pdu.Init nextSeq).2.h.Seq = nextSeq + 1 ∧
      (pdu.Init nextSeq).1 = nextSeq + 1) ∧
    (pdu.h.Seq ≠ 0 →
      (pdu.Init nextSeq).2.h.Seq = pdu.h.Seq ∧ (pdu.Init nextSeq).1 = nextSeq) := by
  constructor
  · intro hc h0
    have hm : (nextSeq + 1) % 4294967296 = nextSeq + 1 := Nat.mod_eq_of_lt (by omega)
    simp [Codec.Init_eq, h0, hm]
  · intro h0
    simp [Codec.Init_eq, h0]

/-- Witness of `Init_seq`: `NewGenericNACK` with the counter at 41, and
`NewDeliverSMRespSeq(7)` with the counter at 41. -/
theorem Init_seq_witness :
    ((41 : Nat) < 4294967295 ∧ (newGenericNACK ⟨0, GenericNACKID, 0, 0⟩).h.Seq = 0 ∧
      (NewGenericNACK 41).2.h.Seq ≠ 0 ∧ (NewGenericNACK 41).2.h.Seq = 42 ∧
      (NewGenericNACK 41).1 = 42) ∧
    ((newDeliverSMResp ⟨0, DeliverSMRespID, 0, 7⟩).h.Seq ≠ 0 ∧
      (NewDeliverSMRespSeq 41 7).2.h.Seq = 7 ∧ (NewDeliverSMRespSeq 41 7).1 = 41) :=
  ⟨⟨by decide, rfl,
      (Init_seq 41 (newGenericNACK ⟨0, GenericNACKID, 0, 0⟩)).1 (by decide) rfl⟩,
   ⟨by decide,
      (Init_seq 41 (newDeliverSMResp ⟨0, DeliverSMRespID, 0, 7⟩)).2 (by decide)⟩⟩

/-- C7 (counterexample): `Init` on a message that already holds a field value
and a TLV entry does not keep them: both maps are empty after the call. -/
theorem Init_discards_maps :
    ((Codec.mk ⟨0, BindReceiverRespID, 0, 9⟩ [pdufield.Name.SystemID]
        [(pdufield.Name.SystemID, pdufield.Body.cstring [0x61])]
        [(0x0210, ⟨0x0210, [0x01]⟩)]).Init 0).2.f = [] ∧
    ((Codec.mk ⟨0, BindReceiverRespID, 0, 9⟩ [pdufield.Name.SystemID]
        [(pdufield.Name.SystemID, pdufield.Body.cstring [0x61])]
        [(0x0210, ⟨0x0210, [0x01]⟩)]).Init 0).2.t = [] := by
  decide

/-- C7 (as amended): `Init` installs a fresh, empty FieldMap and a fresh, empty
TLVMap in every message, whether or not the message already had maps; what it
keeps is the field list and the length, id and status of the header. -/
theorem Init_maps (nextSeq : Nat) (pdu : Codec) :
    (pdu.Init nextSeq).2.f = [] ∧ (pdu.Init nextSeq).2.t = [] ∧
    (pdu.Init nextSeq).2.l = pdu.l ∧ (pdu.Init nextSeq).2.h.Len = pdu.h.Len ∧
    (pdu.Init nextSeq).2.h.ID = pdu.h.ID ∧ (pdu.Init nextSeq).2.h.Status = pdu.h.Status := by
  rw [Codec.Init_eq]
  by_cases hs : pdu.h.Seq = 0 <;> simp [hs]

theorem initAll_seqs (ms : List Codec) :
    ∀ c : Nat, (∀ m ∈ ms, m.h.Seq = 0) → c + ms.length < 4294967296 →
      (initAll c ms).2.map (fun m => m.h.Seq) = List.range' (c + 1) ms.length ∧
      (initAll c ms).1 = c + ms.length := by
  induction ms with
  | nil => intro c _ _; simp [initAll]
  | cons m ms ih =>
      intro c h0 hc
      have hm : m.h.Seq = 0 := h0 m (List.mem_cons_self _ _)
      have hlen : (m :: ms).length = ms.length + 1 := rfl
      rw [hlen] at hc
      have hI := (Init_seq c m).1 (by omega) hm
      have ih1 := ih (c + 1) (fun x hx => h0 x (List.mem_cons_of_mem _ hx)) (by omega)
      simp only [initAll, hI.2.1, hI.2.2, List.map_cons, ih1.1, ih1.2, hlen, List.range'_succ]
      exact ⟨trivial, by omega⟩

/-- C8: starting from the counter value 0, `Init` on `N < 2 ^ 32` fresh
messages (sequence number 0), one after the other, gives them the sequence
numbers 1, 2, ..., N in order and leaves the counter at N; these numbers are
strictly increasing, pairwise different and non-zero. -/
theorem initAll_from_zero (ms : List Codec) (h0 : ∀ m ∈ ms, m.h.Seq = 0)
    (hN : ms.length < 4294967296) :
    (initAll 0 ms).2.map (fun m => m.h.Seq) = List.range' 1 ms.length ∧
    (initAll 0 ms).1 = ms.length ∧
    ((initAll 0 ms).2.map (fun m => m.h.Seq)).Pairwise (fun a b => a < b) ∧
    ((initAll 0 ms).2.map (fun m => m.h.Seq)).Nodup ∧
    (∀ s ∈ (initAll 0 ms).2.map (fun m => m.h.Seq), s ≠ 0) := by
  have h := initAll_seqs ms 0 h0 (by omega)
  simp only [Nat.zero_add] at h
  refine ⟨h.1, h.2, ?_, ?_, ?_⟩
  · rw [h.1]; exact List.pairwise_lt_range' 1 ms.length
  · rw [h.1]; exact List.nodup_range' 1 ms.length
  · intro s hs
    rw [h.1, List.mem_range'_1] at hs
    omega

/-- Witness of `initAll_from_zero`: three fresh messages. -/
theorem initAll_from_zero_witness :
    (∀ m ∈ [newGenericNACK ⟨0, GenericNACKID, 0, 0⟩, newUnbind ⟨0, UnbindID, 0, 0⟩,
        newBindResp ⟨0, BindReceiverRespID, 0, 0⟩], m.h.Seq = 0) ∧
    (3 : Nat) < 4294967296 ∧
    (initAll 0 [newGenericNACK ⟨0, GenericNACKID, 0, 0⟩, newUnbind ⟨0, UnbindID, 0, 0⟩,
        newBindResp ⟨0, BindReceiverRespID, 0, 0⟩]).2.map (fun m => m.h.Seq) = [1, 2, 3] :=
  ⟨by decide, by decide,
   (initAll_from_zero [newGenericNACK ⟨0, GenericNACKID, 0, 0⟩, newUnbind ⟨0, UnbindID, 0, 0⟩,
        newBindResp ⟨0, BindReceiverRespID, 0, 0⟩] (by decide) (by decide)).1⟩

/-! ## Serialisation: `Codec.SerializeTo` -/

theorem Body_SerializeTo_append (v : pdufield.Body) (w : List Byte) :
    v.SerializeTo w = w ++ v.SerializeTo [] := by
  cases v <;> simp [pdufield.Body.SerializeTo]

theorem Field_SerializeTo_append (t : pdutlv.Field) (w : List Byte) :
    t.SerializeTo w = w ++ t.SerializeTo [] := by
  simp [pdutlv.Field.SerializeTo]

theorem lookup_Set (f : pdufield.Map) (k : pdufield.Name) (v : pdufield.Body)
    (k2 : pdufield.Name) :
    pdufield.Map.lookup (pdufield.Map.Set f k v) k2 =
      if k = k2 then some v else pdufield.Map.lookup f k2 := by
  induction f with
  | nil => simp [pdufield.Map.Set, pdufield.Map.lookup]
  | cons e f ih =>
      obtain ⟨k1, v1⟩ := e
      by_cases h1 : k1 = k
      · subst h1
        by_cases h2 : k1 = k2 <;> simp [pdufield.Map.Set, pdufield.Map.lookup, h2]
      · by_cases h2 : k1 = k2
        · subst h2
          have h3 : ¬ k = k1 := fun h => h1 h.symm
          simp [pdufield.Map.Set, pdufield.Map.lookup, h1, h3]
        · simp [pdufield.Map.Set, pdufield.Map.lookup, h1, h2, ih]

theorem fieldBytes_Set_placeholder (P : FieldPkg) (f : pdufield.Map) (k : pdufield.Name)
    (hk : pdufield.Map.lookup f k = none) (k2 : pdufield.Name) :
    fieldBytes P (pdufield.Map.Set f k (P.New k)) k2 = fieldBytes P f k2 := by
  unfold fieldBytes
  rw [lookup_Set]
  by_cases h : k = k2
  · subst h; simp [hk]
  · simp [h]

theorem tableOrderBytes_congr (P : FieldPkg) (f1 f2 : pdufield.Map)
    (h : ∀ k, fieldBytes P f1 k = fieldBytes P f2 k) (l : List pdufield.Name) :
    tableOrderBytes P f1 l = tableOrderBytes P f2 l := by
  induction l with
  | nil => rfl
  | cons k ks ih => simp [tableOrderBytes, h k, ih]

theorem serializeFieldLoop_snd (P : FieldPkg) (l : List pdufield.Name) :
    ∀ (f : pdufield.Map) (b : List Byte),
      (Codec.serializeFieldLoop P l f b).2 = b ++ tableOrderBytes P f l := by
  induction l with
  | nil => intro f b; simp [Codec.serializeFieldLoop, tableOrderBytes]
  | cons k ks ih =>
      intro f b
      cases hk : pdufield.Map.lookup f k with
      | some v =>
          simp only [Codec.serializeFieldLoop, hk, ih, tableOrderBytes, fieldBytes]
          rw [Body_SerializeTo_append v b, List.append_assoc]
      | none =>
          simp only [Codec.serializeFieldLoop, hk, ih, tableOrderBytes, fieldBytes]
          rw [Body_SerializeTo_append (P.New k) b, List.append_assoc,
            tableOrderBytes_congr P _ f (fieldBytes_Set_placeholder P f k hk) ks]

theorem serializeTLVLoop_eq (t : pdutlv.Map) :
    ∀ b : List Byte, Codec.serializeTLVLoop t b = b ++ tlvBytes t := by
  induction t with
  | nil => intro b; simp [Codec.serializeTLVLoop, tlvBytes]
  | cons e t ih =>
      intro b
      obtain ⟨k, v⟩ := e
      simp only [Codec.serializeTLVLoop, tlvBytes, ih]
      rw [Field_SerializeTo_append v b, List.append_assoc]

theorem Codec.body_eq (P : FieldPkg) (pdu : Codec) :
    Codec.body P pdu = tableOrderBytes P pdu.f pdu.l ++ tlvBytes pdu.t := by
  simp [Codec.body, Codec.TLVFields, Codec.FieldList, serializeTLVLoop_eq,
    serializeFieldLoop_snd]

theorem Codec.SerializeTo_snd (P : FieldPkg) (pdu : Codec) (w : List Byte) :
    (pdu.SerializeTo P w).2 = (pdu.SerializeTo P w).1.h.SerializeTo w ++ Codec.body P pdu := rfl

/-- C10: for every message, what `SerializeTo` writes is the header followed by
the body, and the body is the concatenation of the serialisations of the
mandatory fields in the order of the field table, followed by the
serialisations of all TLV entries (in the order the map is ranged over), so no
TLV octet precedes a mandatory-field octet. The body depends on the FieldMap
only through the value it holds for each name: a FieldMap `f2` holding the
same values, whatever order they were put in, gives the same body. -/
theorem SerializeTo_table_order (P : FieldPkg) (pdu : Codec) (f2 : pdufield.Map)
    (w : List Byte)
    (hf : ∀ k, pdufield.Map.lookup f2 k = pdufield.Map.lookup pdu.f k) :
    (pdu.SerializeTo P w).2 =
      (pdu.SerializeTo P w).1.h.SerializeTo w ++
        (tableOrderBytes P pdu.f pdu.l ++ tlvBytes pdu.t) ∧
    ((pdu.SerializeTo P w).1.h.SerializeTo w).length = w.length + 16 ∧
    Codec.body P pdu = tableOrderBytes P pdu.f pdu.l ++ tlvBytes pdu.t ∧
    Codec.body P { pdu with f := f2 } = Codec.body P pdu := by
  refine ⟨?_, ?_, Codec.body_eq P pdu, ?_⟩
  · rw [Codec.SerializeTo_snd, Codec.body_eq]
  · simp [Header.SerializeTo, PutUint32]
  · rw [Codec.body_eq, Codec.body_eq]
    have h : ∀ k, fieldBytes P f2 k = fieldBytes P pdu.f k := by
      intro k; simp [fieldBytes, hf k]
    simp [tableOrderBytes_congr P f2 pdu.f h]

/-- Witness of `SerializeTo_table_order`: a BindResp-like message with two
names in its table, and two field maps that hold the same values in opposite
orders. -/
theorem SerializeTo_table_order_witness :
    (∀ k, pdufield.Map.lookup
        [(pdufield.Name.SystemID, pdufield.Body.cstring [0x73]),
         (pdufield.Name.Password, pdufield.Body.cstring [0x70])] k =
      pdufield.Map.lookup
        [(pdufield.Name.Password, pdufield.Body.cstring [0x70]),
         (pdufield.Name.SystemID, pdufield.Body.cstring [0x73])] k) ∧
    Codec.body examplePkg
      (Codec.mk ⟨0, BindReceiverRespID, 0, 1⟩ [pdufield.Name.SystemID, pdufield.Name.Password]
        [(pdufield.Name.SystemID, pdufield.Body.cstring [0x73]),
         (pdufield.Name.Password, pdufield.Body.cstring [0x70])]
        [(0x0210, ⟨0x0210, [0x01]⟩)]) =
      [0x73, 0x00, 0x70, 0x00, 0x02, 0x10, 0x00, 0x01, 0x01] :=
  ⟨fun k => by cases k <;> rfl,
   (SerializeTo_table_order examplePkg
      (Codec.mk ⟨0, BindReceiverRespID, 0, 1⟩ [pdufield.Name.SystemID, pdufield.Name.Password]
        [(pdufield.Name.Password, pdufield.Body.cstring [0x70]),
         (pdufield.Name.SystemID, pdufield.Body.cstring [0x73])]
        [(0x0210, ⟨0x0210, [0x01]⟩)])
      [(pdufield.Name.SystemID, pdufield.Body.cstring [0x73]),
       (pdufield.Name.Password, pdufield.Body.cstring [0x70])]
      [] (fun k => by cases k <;> rfl)).2.2.2.trans (by decide)⟩

theorem SerializeTo_nil_table (P Q : FieldPkg) (h : Header) (f : pdufield.Map)
    (t : pdutlv.Map) (w : List Byte) :
    (Codec.mk h [] f t).SerializeTo P w = (Codec.mk h [] f t).SerializeTo Q w := rfl

/-- C1 (the code at the failing input): a GenericNACK (empty field table, empty
TLV map) whose FieldMap holds the value "x" for `system_id`. `SerializeTo`
writes 16 octets, none of them for `system_id`, and sets `h.Len` to 18, because
`Len` adds the two octets of the map entry. -/
theorem SerializeTo_len_counts_unlisted_field (P : FieldPkg) :
    ((Codec.mk ⟨0, GenericNACKID, 0, 1⟩ []
        [(pdufield.Name.SystemID, pdufield.Body.cstring [0x78])] []).SerializeTo P []).1.h.Len
      = 18 ∧
    ((Codec.mk ⟨0, GenericNACKID, 0, 1⟩ []
        [(pdufield.Name.SystemID, pdufield.Body.cstring [0x78])] []).SerializeTo P []).2
      = [0x00, 0x00, 0x00, 0x12, 0x80, 0x00, 0x00, 0x00,
         0x00, 0x00, 0x00, 0x00, 0x00, 0x00, 0x00, 0x01] ∧
    ((Codec.mk ⟨0, GenericNACKID, 0, 1⟩ []
        [(pdufield.Name.SystemID, pdufield.Body.cstring [0x78])] []).SerializeTo P []).2.length
      = 16 := by
  rw [SerializeTo_nil_table P examplePkg]
  decide

/-- C9 (the code at the failing input): a GenericNACK with sequence number 7
and status 0 whose field table and TLV map are empty and whose FieldMap holds
the value "12345" for `message_id`. `SerializeTo` writes 16 octets and no body,
and the length it writes is 0x00000016, not 0x00000010. -/
theorem SerializeTo_headerOnly_length_field (P : FieldPkg) :
    ((Codec.mk ⟨0, GenericNACKID, 0, 7⟩ []
        [(pdufield.Name.MessageID, pdufield.Body.cstring [0x31, 0x32, 0x33, 0x34, 0x35])]
        []).SerializeTo P []).2
      = [0x00, 0x00, 0x00, 0x16, 0x80, 0x00, 0x00, 0x00,
         0x00, 0x00, 0x00, 0x00, 0x00, 0x00, 0x00, 0x07] := by
  rw [SerializeTo_nil_table P examplePkg]
  decide

/-- What C9 says holds when the FieldMap is empty as well: a message whose
field table, FieldMap and TLV map are empty is written as the 16 octets of the
header with the length 16. -/
theorem SerializeTo_headerOnly (P : FieldPkg) (h : Header) (w : List Byte) :
    ((Codec.mk h [] [] []).SerializeTo P w).2 =
      w ++ (PutUint32 16 ++ PutUint32 h.ID ++ PutUint32 h.Status ++ PutUint32 h.Seq) ∧
    ((Codec.mk h [] [] []).SerializeTo P w).1.h.Len = 16 := by
  constructor
  · simp [Codec.SerializeTo, Codec.serializeFieldLoop, Codec.serializeTLVLoop, Codec.FieldList,
      Codec.TLVFields, Codec.Len, HeaderLen, Header.SerializeTo]
  · rfl

/-! ## Decoding: `Decode` -/

theorem DecodeHeader_ok (r : List Byte) (header : Header) (r1 : List Byte)
    (hh : DecodeHeader r = .ok (header, r1)) :
    header.Len < 4294967296 ∧ r1 = r.drop 16 ∧ r.length = r1.length + 16 := by
  unfold DecodeHeader at hh
  split at hh
  · next l0 l1 l2 l3 _ _ _ _ _ _ _ _ _ _ _ _ r0 =>
      simp only [Except.ok.injEq, Prod.mk.injEq] at hh
      obtain ⟨h1, h2⟩ := hh
      subst h1 h2
      refine ⟨?_, rfl, ?_⟩
      · simp only [Uint32]
        omega
      · simp
  · cases hh

theorem Decode_of_available (P : FieldPkg) (r : List Byte) (header : Header) (r1 : List Byte)
    (hh : DecodeHeader r = .ok (header, r1)) (hlen : 16 ≤ header.Len)
    (havail : header.Len ≤ r.length) :
    Decode P r =
      Decode.switch P header ((r.drop 16).take (header.Len - 16)) (r.drop header.Len) := by
  obtain ⟨hlt, hr1, hlen1⟩ := DecodeHeader_ok r header r1 hh
  have hn : (header.Len + 4294967296 - HeaderLen) % 4294967296 = header.Len - 16 := by
    have h16 : HeaderLen = 16 := rfl
    rw [h16]
    omega
  have hle : header.Len - 16 ≤ r1.length := by omega
  have hdrop : List.drop (header.Len - 16) (List.drop 16 r) = List.drop header.Len r := by
    rw [List.drop_drop]
    exact congrArg (fun n => List.drop n r) (by omega)
  have hrf : ReadFull r1 (header.Len - 16) =
      (r1.take (header.Len - 16), none, r1.drop (header.Len - 16)) := by
    unfold ReadFull
    rw [if_pos hle]
  have h1 : Decode P r = Decode.readBody P header r1 := by
    unfold Decode
    rw [hh]
  rw [h1, Decode.readBody, hn, hrf, Decode.afterRead, hr1, hdrop]

theorem switch_unknown (P : FieldPkg) (header : Header) (raw r2 : List Byte)
    (hid : header.ID ∉ allIDs) :
    Decode.switch P header raw r2 =
      ⟨none, some header, some raw, some (.unknownPDU header.ID), r2⟩ := by
  simp only [allIDs, List.mem_cons, List.mem_singleton, List.not_mem_nil, not_or] at hid
  simp [Decode.switch, hid]

/-- C3: for every command id that is not one of the 27 `ID` constants and every
header with `CommandLength >= 16` whose declared body is available in the
source, `Decode` fails with the "unknown PDU type" error for that id, returns no
decoded message, returns the header and the declared body as `raw`, and has
consumed exactly `CommandLength` octets of the source: the reader is left at
the octets after the declared body. -/
theorem Decode_unknown_id (P : FieldPkg) (r : List Byte) (header : Header) (r1 : List Byte)
    (hh : DecodeHeader r = .ok (header, r1)) (hlen : 16 ≤ header.Len)
    (havail : header.Len ≤ r.length) (hid : header.ID ∉ allIDs) :
    (Decode P r).err = some (.unknownPDU header.ID) ∧
    (Decode P r).decoded = none ∧
    (Decode P r).header = some header ∧
    (Decode P r).raw = some ((r.drop 16).take (header.Len - 16)) ∧
    (Decode P r).rest = r.drop header.Len ∧
    (Decode P r).rest.length + header.Len = r.length := by
  rw [Decode_of_available P r header r1 hh hlen havail, switch_unknown P header _ _ hid]
  refine ⟨rfl, rfl, rfl, rfl, rfl, ?_⟩
  simp only [List.length_drop]
  omega

/-- Witness of `Decode_unknown_id`: a header that declares the length 20 and
the command id 0x12345678, followed by four body octets and by two octets of
the next frame, which stay in the reader. -/
theorem Decode_unknown_id_witness :
    DecodeHeader [0, 0, 0, 20, 0x12, 0x34, 0x56, 0x78, 0, 0, 0, 0, 0, 0, 0, 1,
        0xAA, 0xBB, 0xCC, 0xDD, 0x00, 0x00]
      = .ok (⟨20, 0x12345678, 0, 1⟩, [0xAA, 0xBB, 0xCC, 0xDD, 0x00, 0x00]) ∧
    (0x12345678 : Nat) ∉ allIDs ∧
    (Decode examplePkg [0, 0, 0, 20, 0x12, 0x34, 0x56, 0x78, 0, 0, 0, 0, 0, 0, 0, 1,
        0xAA, 0xBB, 0xCC, 0xDD, 0x00, 0x00]).err = some (.unknownPDU 0x12345678) ∧
    (Decode examplePkg [0, 0, 0, 20, 0x12, 0x34, 0x56, 0x78, 0, 0, 0, 0, 0, 0, 0, 1,
        0xAA, 0xBB, 0xCC, 0xDD, 0x00, 0x00]).rest = [0x00, 0x00] :=
  ⟨rfl, by decide,
   (Decode_unknown_id examplePkg [0, 0, 0, 20, 0x12, 0x34, 0x56, 0x78, 0, 0, 0, 0, 0, 0, 0, 1,
        0xAA, 0xBB, 0xCC, 0xDD, 0x00, 0x00] ⟨20, 0x12345678, 0, 1⟩
        [0xAA, 0xBB, 0xCC, 0xDD, 0x00, 0x00] rfl (by decide) (by decide) (by decide)).1,
   by decide⟩

theorem switch_DataSM (P : FieldPkg) (header : Header) (raw r2 : List Byte)
    (hid : header.ID = DataSMID ∨ header.ID = DataSMRespID) :
    Decode.switch P header raw r2 =
      ⟨none, some header, some raw, some (.notImplemented header.ID), r2⟩ := by
  rcases hid with h | h <;>
    simp [Decode.switch, h, DataSMID, DataSMRespID, AlertNotificationID, BindReceiverID,
      BindTransceiverID, BindTransmitterID, BindReceiverRespID, BindTransceiverRespID,
      BindTransmitterRespID, CancelSMID, CancelSMRespID]

/-- C2 (the code at the failing input): `Decode` of a DataSM frame (command id
0x00000103, no body) and of a DataSMResp frame (command id 0x80000103, body: an
empty null-terminated message id) fails with "PDU not implemented" and returns
no decoded message; the shells `newDataSM` and `newDataSMResp` are never
built. -/
theorem Decode_DataSM_not_implemented (P : FieldPkg) :
    Decode P [0, 0, 0, 16, 0x00, 0x00, 0x01, 0x03, 0, 0, 0, 0, 0, 0, 0, 1] =
      ⟨none, some ⟨16, DataSMID, 0, 1⟩, some [], some (.notImplemented DataSMID), []⟩ ∧
    Decode P [0, 0, 0, 17, 0x80, 0x00, 0x01, 0x03, 0, 0, 0, 0, 0, 0, 0, 1, 0] =
      ⟨none, some ⟨17, DataSMRespID, 0, 1⟩, some [0], some (.notImplemented DataSMRespID),
        []⟩ := by
  constructor
  · rw [Decode_of_available P [0, 0, 0, 16, 0x00, 0x00, 0x01, 0x03, 0, 0, 0, 0, 0, 0, 0, 1]
        ⟨16, DataSMID, 0, 1⟩ [] rfl (by decide) (by decide),
      switch_DataSM P _ _ _ (Or.inl rfl)]
    rfl
  · rw [Decode_of_available P [0, 0, 0, 17, 0x80, 0x00, 0x01, 0x03, 0, 0, 0, 0, 0, 0, 0, 1, 0]
        ⟨17, DataSMRespID, 0, 1⟩ [0] rfl (by decide) (by decide),
      switch_DataSM P _ _ _ (Or.inr rfl)]
    rfl

theorem DecodeTLVLoop_error (fuel : Nat) :
    ∀ (r : List Byte) (t : pdutlv.Map) (e : Error),
      pdutlv.DecodeTLVLoop fuel r t = .error e → e = .tlvTruncated := by
  induction fuel with
  | zero =>
      intro r t e h
      cases r with
      | nil => simp [pdutlv.DecodeTLVLoop] at h
      | cons a r => simp [pdutlv.DecodeTLVLoop] at h; exact h.symm
  | succ fuel ih =>
      intro r t e h
      match r, h with
      | [], h => rw [pdutlv.DecodeTLVLoop_nil] at h; cases h
      | [_], h => simp [pdutlv.DecodeTLVLoop] at h; exact h.symm
      | [_, _], h => simp [pdutlv.DecodeTLVLoop] at h; exact h.symm
      | [_, _, _], h => simp [pdutlv.DecodeTLVLoop] at h; exact h.symm
      | t0 :: t1 :: l0 :: l1 :: r, h =>
          rw [pdutlv.DecodeTLVLoop_step] at h
          split at h
          · cases h; rfl
          · exact ih _ _ _ h

theorem Decode_fields_err (P : FieldPkg) (shell : Codec) (header : Header)
    (raw r2 : List Byte) (id : Nat) :
    (Decode.fields P shell header raw r2).err ≠ some (.notImplemented id) := by
  unfold Decode.fields DecodeFields
  cases hd : P.Decode shell.FieldList raw with
  | error e => simp [hd]
  | ok fr =>
      obtain ⟨f, r⟩ := fr
      cases ht : pdutlv.DecodeTLV r with
      | error e =>
          have := DecodeTLVLoop_error _ _ _ _ ht
          subst this
          simp [hd, ht]
      | ok t => simp [hd, ht]

theorem switch_notImplemented_of_mem (P : FieldPkg) (header : Header) (raw r2 : List Byte)
    (hid : header.ID ∈ [AlertNotificationID, CancelSMID, CancelSMRespID, DataSMID, DataSMRespID,
        OutbindID, ReplaceSMID, ReplaceSMRespID]) :
    Decode.switch P header raw r2 =
      ⟨none, some header, some raw, some (.notImplemented header.ID), r2⟩ := by
  simp only [List.mem_cons, List.mem_singleton, List.not_mem_nil, or_false] at hid
  rcases hid with h | h | h | h | h | h | h | h <;>
    simp [Decode.switch, h, AlertNotificationID, BindReceiverID, BindTransceiverID,
      BindTransmitterID, BindReceiverRespID, BindTransceiverRespID, BindTransmitterRespID,
      CancelSMID, CancelSMRespID, DataSMID, DataSMRespID, DeliverSMID, DeliverSMRespID,
      EnquireLinkID, EnquireLinkRespID, GenericNACKID, OutbindID, QuerySMID, QuerySMRespID,
      ReplaceSMID, ReplaceSMRespID]

theorem switch_err_of_not_mem (P : FieldPkg) (header : Header) (raw r2 : List Byte)
    (hid : header.ID ∉ [AlertNotificationID, CancelSMID, CancelSMRespID, DataSMID, DataSMRespID,
        OutbindID, ReplaceSMID, ReplaceSMRespID]) :
    (Decode.switch P header raw r2).err ≠ some (.notImplemented header.ID) := by
  have hf := fun shell => Decode_fields_err P shell header raw r2 header.ID
  simp only [List.mem_cons, List.mem_singleton, List.not_mem_nil, or_false, not_or] at hid
  obtain ⟨h1, h2, h3, h4, h5, h6, h7, h8⟩ := hid
  unfold Decode.switch
  simp only [h1, h2, h3, h4, h5, h6, h7, h8, reduceIte]
  by_cases c1 : header.ID = BindReceiverID ∨ header.ID = BindTransceiverID ∨ header.ID = BindTransmitterID
  · rw [if_pos c1]; exact hf _
  rw [if_neg c1]
  by_cases c2 : header.ID = BindReceiverRespID ∨ header.ID = BindTransceiverRespID ∨
      header.ID = BindTransmitterRespID
  · rw [if_pos c2]; exact hf _
  rw [if_neg c2]
  by_cases c3 : header.ID = DeliverSMID
  · rw [if_pos c3]; exact hf _
  rw [if_neg c3]
  by_cases c4 : header.ID = DeliverSMRespID
  · rw [if_pos c4]; exact hf _
  rw [if_neg c4]
  by_cases c5 : header.ID = EnquireLinkID
  · rw [if_pos c5]; exact hf _
  rw [if_neg c5]
  by_cases c6 : header.ID = EnquireLinkRespID
  · rw [if_pos c6]; exact hf _
  rw [if_neg c6]
  by_cases c7 : header.ID = GenericNACKID
  · rw [if_pos c7]; exact hf _
  rw [if_neg c7]
  by_cases c8 : header.ID = QuerySMID
  · rw [if_pos c8]; exact hf _
  rw [if_neg c8]
  by_cases c9 : header.ID = QuerySMRespID
  · rw [if_pos c9]; exact hf _
  rw [if_neg c9]
  by_cases c10 : header.ID = SubmitMultiID
  · rw [if_pos c10]; exact hf _
  rw [if_neg c10]
  by_cases c11 : header.ID = SubmitMultiRespID
  · rw [if_pos c11]; exact hf _
  rw [if_neg c11]
  by_cases c12 : header.ID = SubmitSMID
  · rw [if_pos c12]; exact hf _
  rw [if_neg c12]
  by_cases c13 : header.ID = SubmitSMRespID
  · rw [if_pos c13]; exact hf _
  rw [if_neg c13]
  by_cases c14 : header.ID = UnbindID
  · rw [if_pos c14]; exact hf _
  rw [if_neg c14]
  by_cases c15 : header.ID = UnbindRespID
  · rw [if_pos c15]; exact hf _
  rw [if_neg c15]
  simp

/-- The ids on which the switch of `Decode` reaches "PDU not implemented": the
six ids without a PDU type and, in addition, DataSM and DataSMResp. Every other
id is dispatched to a field decoder or is unknown, and does not yield that
error. -/
theorem switch_notImplemented_iff (P : FieldPkg) (header : Header) (raw r2 : List Byte) :
    (Decode.switch P header raw r2).err = some (.notImplemented header.ID) ↔
      header.ID ∈ [AlertNotificationID, CancelSMID, CancelSMRespID, DataSMID, DataSMRespID,
        OutbindID, ReplaceSMID, ReplaceSMRespID] := by
  constructor
  · intro h
    by_contra hn
    exact switch_err_of_not_mem P header raw r2 hn h
  · intro h
    rw [switch_notImplemented_of_mem P header raw r2 h]

/-! ## The length computed by `Codec.Len` and the length written -/

theorem bigEndian_length (w : Nat) : ∀ v : Nat, (pdufield.bigEndian w v).length = w := by
  induction w with
  | zero => intro v; rfl
  | succ w ih => intro v; simp [pdufield.bigEndian, ih]

theorem Body_Len_eq (v : pdufield.Body) : v.Len = (v.SerializeTo []).length := by
  cases v <;> simp [pdufield.Body.Len, pdufield.Body.SerializeTo, bigEndian_length]

theorem Field_Len_eq (t : pdutlv.Field) : t.Len = (t.SerializeTo []).length := by
  simp [pdutlv.Field.Len, pdutlv.Field.Bytes, pdutlv.Field.SerializeTo, PutUint16]

theorem foldl_field_len (f : pdufield.Map) :
    ∀ init : Nat, f.foldl (fun l kv => l + kv.2.Len) init = init + unlistedLen [] f := by
  induction f with
  | nil => intro init; simp [unlistedLen]
  | cons e f ih =>
      intro init
      obtain ⟨k, v⟩ := e
      simp only [List.foldl_cons, ih, unlistedLen, List.not_mem_nil, if_false]
      omega

theorem foldl_tlv_len (t : pdutlv.Map) :
    ∀ init : Nat, t.foldl (fun l kv => l + kv.2.Len) init = init + (tlvBytes t).length := by
  induction t with
  | nil => intro init; simp [tlvBytes]
  | cons e t ih =>
      intro init
      obtain ⟨k, v⟩ := e
      have hv := Field_Len_eq v
      simp only [List.foldl_cons, ih, tlvBytes, List.length_append]
      omega

theorem Codec.Len_eq (pdu : Codec) :
    pdu.Len = 16 + unlistedLen [] pdu.f + (tlvBytes pdu.t).length := by
  simp only [Codec.Len, HeaderLen, foldl_field_len, foldl_tlv_len]

theorem unlistedLen_cons_of_not_mem (k : pdufield.Name) (ks : List pdufield.Name)
    (f : pdufield.Map) (h : k ∉ f.map Prod.fst) :
    unlistedLen (k :: ks) f = unlistedLen ks f := by
  induction f with
  | nil => rfl
  | cons e f ih =>
      obtain ⟨k1, v1⟩ := e
      simp only [List.map_cons, List.mem_cons, not_or] at h
      have hne : ¬ k1 = k := fun hk => h.1 hk.symm
      simp only [unlistedLen, List.mem_cons, hne, false_or, ih h.2]

theorem unlistedLen_append (l : List pdufield.Name) (f g : pdufield.Map) :
    unlistedLen l (f ++ g) = unlistedLen l f + unlistedLen l g := by
  induction f with
  | nil => simp [unlistedLen]
  | cons e f ih =>
      obtain ⟨k1, v1⟩ := e
      show unlistedLen l ((k1, v1) :: (f ++ g)) = _
      simp only [unlistedLen, ih]
      omega

theorem lookup_eq_none_iff (f : pdufield.Map) (k : pdufield.Name) :
    pdufield.Map.lookup f k = none ↔ k ∉ f.map Prod.fst := by
  induction f with
  | nil => simp [pdufield.Map.lookup]
  | cons e f ih =>
      obtain ⟨k1, v1⟩ := e
      by_cases h : k1 = k
      · subst h; simp [pdufield.Map.lookup]
      · have h2 : ¬ k = k1 := fun hk => h hk.symm
        simp [pdufield.Map.lookup, h, h2, ih]

theorem Set_of_lookup_none (f : pdufield.Map) (k : pdufield.Name) (v : pdufield.Body)
    (h : pdufield.Map.lookup f k = none) : pdufield.Map.Set f k v = f ++ [(k, v)] := by
  induction f with
  | nil => rfl
  | cons e f ih =>
      obtain ⟨k1, v1⟩ := e
      by_cases h1 : k1 = k
      · subst h1; simp [pdufield.Map.lookup] at h
      · simp only [pdufield.Map.lookup, h1, if_false] at h
        simp [pdufield.Map.Set, h1, ih h]

theorem unlistedLen_of_lookup_some (k : pdufield.Name) (ks : List pdufield.Name)
    (hk : k ∉ ks) (v : pdufield.Body) (f : pdufield.Map) (hf : (f.map Prod.fst).Nodup)
    (hv : pdufield.Map.lookup f k = some v) :
    unlistedLen ks f = unlistedLen (k :: ks) f + v.Len := by
  induction f with
  | nil => simp [pdufield.Map.lookup] at hv
  | cons e f ih =>
      obtain ⟨k1, v1⟩ := e
      simp only [List.map_cons, List.nodup_cons] at hf
      by_cases h1 : k1 = k
      · subst h1
        simp only [pdufield.Map.lookup, if_true, Option.some.injEq] at hv
        subst hv
        simp only [unlistedLen, hk, if_false, List.mem_cons, true_or, if_true,
          unlistedLen_cons_of_not_mem k1 ks f hf.1]
        omega
      · simp only [pdufield.Map.lookup, h1, if_false] at hv
        simp only [unlistedLen, List.mem_cons, h1, false_or, ih hf.2 hv]
        omega

theorem serializeFieldLoop_len (P : FieldPkg) (ks : List pdufield.Name) :
    ∀ (f : pdufield.Map) (b : List Byte), ks.Nodup → (f.map Prod.fst).Nodup →
      unlistedLen [] (Codec.serializeFieldLoop P ks f b).1 =
        unlistedLen ks f + (tableOrderBytes P f ks).length := by
  induction ks with
  | nil => intro f b _ _; simp [Codec.serializeFieldLoop, tableOrderBytes]
  | cons k ks ih =>
      intro f b hks hf
      simp only [List.nodup_cons] at hks
      cases hv : pdufield.Map.lookup f k with
      | some v =>
          simp only [Codec.serializeFieldLoop, hv, ih f _ hks.2 hf, tableOrderBytes, fieldBytes,
            List.length_append, unlistedLen_of_lookup_some k ks hks.1 v f hf hv, Body_Len_eq v]
          omega
      | none =>
          have hnot : k ∉ f.map Prod.fst := (lookup_eq_none_iff f k).1 hv
          have hset := Set_of_lookup_none f k (P.New k) hv
          have hf1 : ((pdufield.Map.Set f k (P.New k)).map Prod.fst).Nodup := by
            rw [hset, List.map_append, List.nodup_append]
            refine ⟨hf, by simp, ?_⟩
            intro a ha hb
            simp only [List.map_cons, List.map_nil, List.mem_singleton] at hb
            subst hb
            exact hnot ha
          simp only [Codec.serializeFieldLoop, hv, ih _ _ hks.2 hf1, tableOrderBytes, fieldBytes,
            List.length_append,
            tableOrderBytes_congr P _ f (fieldBytes_Set_placeholder P f k hv) ks]
          rw [hset, unlistedLen_append, unlistedLen_cons_of_not_mem k ks f hnot]
          simp only [unlistedLen, hks.1, if_false, Body_Len_eq (P.New k)]
          omega

/-- The length that `SerializeTo` stores in the header, for a message whose
field table has no repeated name: `uint32` of 16, plus the octets of the body,
plus the encoded lengths of the FieldMap entries whose name is not in the field
table. The stored length is the frame length exactly when the last summand is 0
and the sum is below `2 ^ 32`. -/
theorem SerializeTo_Len (P : FieldPkg) (pdu : Codec) (w : List Byte) (hl : pdu.l.Nodup)
    (hf : (pdu.f.map Prod.fst).Nodup) :
    (pdu.SerializeTo P w).1.h.Len =
      (16 + (Codec.body P pdu).length + unlistedLen pdu.l pdu.f) % 4294967296 ∧
    (pdu.SerializeTo P w).2.length = w.length + 16 + (Codec.body P pdu).length := by
  constructor
  · show (Codec.Len { pdu with f := (Codec.serializeFieldLoop P pdu.FieldList pdu.f []).1 })
        % 4294967296 = _
    rw [Codec.Len_eq, Codec.body_eq]
    simp only [Codec.FieldList, serializeFieldLoop_len P pdu.l pdu.f [] hl hf, List.length_append]
    congr 1
    omega
  · rw [Codec.SerializeTo_snd]
    simp [Header.SerializeTo, PutUint32]
    omega

theorem unlistedLen_eq_zero (l : List pdufield.Name) (f : pdufield.Map)
    (h : ∀ kv ∈ f, kv.1 ∈ l) : unlistedLen l f = 0 := by
  induction f with
  | nil => rfl
  | cons e f ih =>
      obtain ⟨k, v⟩ := e
      have hk : k ∈ l := h (k, v) (List.mem_cons_self _ _)
      simp only [unlistedLen, hk, if_true, ih (fun kv hkv => h kv (List.mem_cons_of_mem _ hkv))]

/-- Where the invariant `CommandLength = 16 + len(body)` does hold: for a
message whose field table has no repeated name, whose FieldMap holds values
only for names of the field table, and whose frame is shorter than `2 ^ 32`
octets, `SerializeTo` stores the frame length in the header and writes that
many octets. -/
theorem SerializeTo_Len_of_listed (P : FieldPkg) (pdu : Codec) (w : List Byte)
    (hl : pdu.l.Nodup) (hf : (pdu.f.map Prod.fst).Nodup) (hsub : ∀ kv ∈ pdu.f, kv.1 ∈ pdu.l)
    (hlt : 16 + (Codec.body P pdu).length < 4294967296) :
    (pdu.SerializeTo P w).1.h.Len = 16 + (Codec.body P pdu).length ∧
    (pdu.SerializeTo P w).2.length = w.length + (pdu.SerializeTo P w).1.h.Len := by
  have h := SerializeTo_Len P pdu w hl hf
  rw [unlistedLen_eq_zero pdu.l pdu.f hsub, Nat.add_zero, Nat.mod_eq_of_lt hlt] at h
  refine ⟨h.1, ?_⟩
  rw [h.1, h.2]
  omega

/-! ## TLV accessors: `Field.String`, `Field.Bytes` -/

theorem Field_String_snoc_zero (tag : pdutlv.Tag) (d : List Byte) :
    (pdutlv.Field.mk tag (d ++ [0])).String = d := by
  simp [pdutlv.Field.String]

theorem Field_String_snoc_nonzero (tag : pdutlv.Tag) (d : List Byte) (b : Byte) (hb : b ≠ 0) :
    (pdutlv.Field.mk tag (d ++ [b])).String = d ++ [b] := by
  simp [pdutlv.Field.String, hb]

/-- C13: `Field.String` strips exactly one trailing terminator octet and
nothing else. A payload that ends in 0x00 is rendered without that last octet,
whatever the octets before it are (zero octets inside the payload and a second
trailing zero are kept); the empty payload and a payload that ends in a
non-zero octet are rendered whole. `Field.Bytes` returns the stored payload
unchanged, terminator included. -/
theorem Field_String_strips_one_terminator (tag : pdutlv.Tag) (d : List Byte) (b : Byte)
    (hb : b ≠ 0) :
    (pdutlv.Field.mk tag (d ++ [0])).String = d ∧
    (pdutlv.Field.mk tag (d ++ [0, 0])).String = d ++ [0] ∧
    (pdutlv.Field.mk tag (d ++ [b])).String = d ++ [b] ∧
    (pdutlv.Field.mk tag []).String = [] ∧
    (pdutlv.Field.mk tag (d ++ [0])).Bytes = d ++ [0] ∧
    (pdutlv.Field.mk tag (d ++ [b])).Bytes = d ++ [b] := by
  refine ⟨Field_String_snoc_zero tag d, ?_, Field_String_snoc_nonzero tag d b hb, rfl, rfl, rfl⟩
  have h := Field_String_snoc_zero tag (d ++ [0])
  simpa using h

/-- Witness of `Field_String_strips_one_terminator`: the payloads "a\0",
"a\0\0" and "ab". -/
theorem Field_String_strips_one_terminator_witness :
    (0x62 : Byte) ≠ 0 ∧
    (pdutlv.Field.mk 0x001E ([0x61] ++ [0])).String = [0x61] ∧
    (pdutlv.Field.mk 0x001E ([0x61] ++ [0, 0])).String = [0x61] ++ [0] ∧
    (pdutlv.Field.mk 0x001E ([0x61] ++ [0x62])).String = [0x61] ++ [0x62] ∧
    (pdutlv.Field.mk 0x001E []).String = [] ∧
    (pdutlv.Field.mk 0x001E ([0x61] ++ [0])).Bytes = [0x61] ++ [0] ∧
    (pdutlv.Field.mk 0x001E ([0x61] ++ [0x62])).Bytes = [0x61] ++ [0x62] :=
  ⟨by decide, Field_String_strips_one_terminator 0x001E [0x61] 0x62 (by decide)⟩

/-! ## `Codec.Len` -/

theorem unlistedLen_nil_eq_sum (f : pdufield.Map) :
    unlistedLen [] f = (f.map (fun kv => kv.2.Len)).sum := by
  induction f with
  | nil => rfl
  | cons e f ih =>
      obtain ⟨k, v⟩ := e
      simp [unlistedLen, ih]

theorem tlvBytes_length_eq_sum (t : pdutlv.Map) :
    (tlvBytes t).length = (t.map (fun kv => 4 + kv.2.Data.length)).sum := by
  induction t with
  | nil => rfl
  | cons e t ih =>
      obtain ⟨k, v⟩ := e
      simp [tlvBytes, ih, pdutlv.Field.SerializeTo, PutUint16]
      omega

/-- C14: for every message, `Codec.Len` is 16 plus the sum of the encoded
lengths of all FieldMap values plus the sum over all TLV entries of 4 plus the
payload length; it is at least 16, and it is 16 for a message with empty
maps. -/
theorem Codec_Len_sum (pdu : Codec) (h : Header) (l : List pdufield.Name) :
    pdu.Len = 16 + (pdu.f.map (fun kv => kv.2.Len)).sum
      + (pdu.t.map (fun kv => 4 + kv.2.Data.length)).sum ∧
    pdu.Len = 16 + (pdu.f.map (fun kv => kv.2.Len)).sum
      + (pdu.t.map (fun kv => kv.2.Len)).sum ∧
    16 ≤ pdu.Len ∧
    (Codec.mk h l [] []).Len = 16 := by
  have h1 : pdu.Len = 16 + (pdu.f.map (fun kv => kv.2.Len)).sum
      + (pdu.t.map (fun kv => 4 + kv.2.Data.length)).sum := by
    rw [Codec.Len_eq, unlistedLen_nil_eq_sum, tlvBytes_length_eq_sum]
  have h2 : (pdu.t.map (fun kv => kv.2.Len)) = (pdu.t.map (fun kv => 4 + kv.2.Data.length)) := by
    apply List.map_congr_left
    intro kv _
    simp [pdutlv.Field.Len, pdutlv.Field.Bytes]
    omega
  refine ⟨h1, ?_, ?_, rfl⟩
  · rw [h2]; exact h1
  · omega

/-! ## Placeholders for missing field values -/

theorem serializeFieldLoop_lookup (P : FieldPkg) (ks : List pdufield.Name) :
    ∀ (f : pdufield.Map) (b : List Byte) (k : pdufield.Name),
      pdufield.Map.lookup (Codec.serializeFieldLoop P ks f b).1 k =
        if k ∈ ks ∧ pdufield.Map.lookup f k = none then some (P.New k)
        else pdufield.Map.lookup f k := by
  induction ks with
  | nil => intro f b k; simp [Codec.serializeFieldLoop]
  | cons k0 ks ih =>
      intro f b k
      cases hv : pdufield.Map.lookup f k0 with
      | some v =>
          simp only [Codec.serializeFieldLoop, hv, ih]
          by_cases hkk : k = k0
          · subst hkk; simp [hv]
          · simp [hkk]
      | none =>
          simp only [Codec.serializeFieldLoop, hv, ih, lookup_Set]
          by_cases hkk : k = k0
          · subst hkk; simp [hv]
          · have hkk2 : ¬ k0 = k := fun h => hkk h.symm
            simp [hkk, hkk2]

theorem tableOrderBytes_mem (P : FieldPkg) (f : pdufield.Map) (k : pdufield.Name)
    (l : List pdufield.Name) (hk : k ∈ l) :
    ∃ pre post, tableOrderBytes P f l = pre ++ fieldBytes P f k ++ post := by
  induction l with
  | nil => cases hk
  | cons k0 ks ih =>
      rcases List.mem_cons.1 hk with h | h
      · subst h
        exact ⟨[], tableOrderBytes P f ks, by simp [tableOrderBytes]⟩
      · obtain ⟨pre, post, hpp⟩ := ih h
        exact ⟨fieldBytes P f k0 ++ pre, post, by simp [tableOrderBytes, hpp]⟩

theorem bigEndian_zero (w : Nat) : ∀ x ∈ pdufield.bigEndian w 0, x = 0 := by
  induction w with
  | zero => intro x hx; simp [pdufield.bigEndian] at hx
  | succ w ih =>
      intro x hx
      simp only [pdufield.bigEndian, Nat.zero_div, List.mem_append, List.mem_singleton] at hx
      rcases hx with h | h
      · exact ih x h
      · rw [h]; rfl

/-- The octets of an empty/zero placeholder are all zero. -/
theorem isPlaceholder_bytes (v : pdufield.Body) (hv : v.isPlaceholder = true) :
    ∀ x ∈ v.SerializeTo [], x = 0 := by
  cases v with
  | fixedInt wd n =>
      have hn : n = 0 := by simpa [pdufield.Body.isPlaceholder] using hv
      subst hn
      simpa [pdufield.Body.SerializeTo] using bigEndian_zero wd
  | cstring d =>
      have hd : d = [] := by simpa [pdufield.Body.isPlaceholder] using hv
      subst hd
      simp [pdufield.Body.SerializeTo]
  | governedBlob d =>
      have hd : d = [] := by simpa [pdufield.Body.isPlaceholder] using hv
      subst hd
      simp [pdufield.Body.SerializeTo]
  | fixedBlob d =>
      simpa [pdufield.Body.isPlaceholder, pdufield.Body.SerializeTo] using hv

/-- On an allocated field map the first loop of `SerializeTo` does not panic. -/
theorem serializeFieldLoopNil_some (P : FieldPkg) (ks : List pdufield.Name) :
    ∀ (f : pdufield.Map) (b : List Byte),
      Codec.serializeFieldLoopNil P ks (some f) b =
        some (Codec.serializeFieldLoop P ks f b) := by
  induction ks with
  | nil => intro f b; rfl
  | cons k ks ih =>
      intro f b
      cases hv : pdufield.Map.lookup f k with
      | some v => simp only [Codec.serializeFieldLoopNil, Codec.serializeFieldLoop, hv, ih]
      | none => simp only [Codec.serializeFieldLoopNil, Codec.serializeFieldLoop, hv, ih]

/-- On a codec whose field map is allocated `SerializeTo` returns, with the
result of `Codec.SerializeTo`. -/
theorem SerializeToNil_allocated (P : FieldPkg) (pdu : Codec) (w : List Byte) :
    Codec.SerializeToNil P false pdu w = some (pdu.SerializeTo P w) := by
  unfold Codec.SerializeToNil
  simp only [Bool.false_eq_true, if_false]
  rw [serializeFieldLoopNil_some]
  rfl

/-- On a codec whose field map is nil and whose field table names a field,
`SerializeTo` panics at the first name of the table. -/
theorem SerializeToNil_nil_map (P : FieldPkg) (pdu : Codec) (w : List Byte)
    (hl : pdu.l ≠ []) : Codec.SerializeToNil P true pdu w = none := by
  unfold Codec.SerializeToNil Codec.FieldList
  cases hl2 : pdu.l with
  | nil => exact absurd hl2 hl
  | cons k ks => simp [Codec.serializeFieldLoopNil]

/-- On a codec whose field map is nil and whose field table is empty
`SerializeTo` returns: nothing is written to the map. -/
theorem SerializeToNil_nil_map_empty_table (P : FieldPkg) (pdu : Codec) (w : List Byte)
    (hl : pdu.l = []) :
    Codec.SerializeToNil P true pdu w = some (Codec.SerializeTo P { pdu with f := [] } w) := by
  unfold Codec.SerializeToNil Codec.SerializeTo Codec.FieldList
  simp [hl, Codec.serializeFieldLoopNil, Codec.serializeFieldLoop]

/-- C12 (counterexample): the BindResp shell that `newBindResp` builds, before
`Init` has run on it. Its field table names `system_id`, its FieldMap, the nil
map, holds no value for that name, and `SerializeTo` does not synthesise a
placeholder: the write of the placeholder to the nil map panics. -/
theorem SerializeTo_nil_map_panics :
    pdufield.Name.SystemID ∈ (newBindResp ⟨0, BindReceiverRespID, 0, 1⟩).l ∧
    pdufield.Map.lookup (newBindResp ⟨0, BindReceiverRespID, 0, 1⟩).f
      pdufield.Name.SystemID = none ∧
    Codec.SerializeToNil examplePkg true (newBindResp ⟨0, BindReceiverRespID, 0, 1⟩) []
      = none :=
  ⟨by decide, rfl, rfl⟩

/-- C12 (amended): for every message whose FieldMap is allocated, every name
`k` of its field table, and a package whose placeholders are empty/zero values:
`SerializeTo` returns; after it `k` is a key of the FieldMap, with the value
held before or, when there was none, the placeholder that `Set(k, nil)` stores;
the octets of that value are part of what is written, so every declared field
appears on the wire; a value that was present is serialised as it is, a missing
one as the octets of an empty/zero placeholder, all of them zero; every value
that was present before is unchanged, and no name outside the field table is
added. On the same message with its FieldMap still nil, `SerializeTo`
panics. -/
theorem SerializeTo_placeholders_allocated (P : FieldPkg) (pdu : Codec) (w : List Byte)
    (k : pdufield.Name) (hk : k ∈ pdu.l)
    (hnew : ∀ k2, (P.New k2).isPlaceholder = true) :
    Codec.SerializeToNil P false pdu w = some (pdu.SerializeTo P w) ∧
    pdufield.Map.lookup (pdu.SerializeTo P w).1.f k =
      some ((pdufield.Map.lookup pdu.f k).getD (P.New k)) ∧
    fieldBytes P pdu.f k = ((pdufield.Map.lookup pdu.f k).getD (P.New k)).SerializeTo [] ∧
    (∃ pre post, Codec.body P pdu = pre ++ fieldBytes P pdu.f k ++ post) ∧
    (∃ pre post, (pdu.SerializeTo P w).2 = pre ++ fieldBytes P pdu.f k ++ post ∧
      w.length + 16 ≤ pre.length) ∧
    (pdufield.Map.lookup pdu.f k = none →
      pdufield.Map.lookup (pdu.SerializeTo P w).1.f k = some (P.New k) ∧
      (P.New k).isPlaceholder = true ∧
      fieldBytes P pdu.f k = (P.New k).SerializeTo [] ∧
      ∀ x ∈ fieldBytes P pdu.f k, x = 0) ∧
    (∀ k2 v, pdufield.Map.lookup pdu.f k2 = some v →
      pdufield.Map.lookup (pdu.SerializeTo P w).1.f k2 = some v) ∧
    (∀ k2, k2 ∉ pdu.l →
      pdufield.Map.lookup (pdu.SerializeTo P w).1.f k2 = pdufield.Map.lookup pdu.f k2) ∧
    Codec.SerializeToNil P true pdu w = none := by
  have hf : ∀ k2, pdufield.Map.lookup (pdu.SerializeTo P w).1.f k2 =
      if k2 ∈ pdu.l ∧ pdufield.Map.lookup pdu.f k2 = none then some (P.New k2)
      else pdufield.Map.lookup pdu.f k2 :=
    fun k2 => serializeFieldLoop_lookup P pdu.l pdu.f [] k2
  obtain ⟨pre, post, hpp⟩ := tableOrderBytes_mem P pdu.f k pdu.l hk
  refine ⟨SerializeToNil_allocated P pdu w, ?_, ?_, ?_, ?_, ?_, ?_, ?_,
    SerializeToNil_nil_map P pdu w (List.ne_nil_of_mem hk)⟩
  · rw [hf]
    cases hv : pdufield.Map.lookup pdu.f k <;> simp [hk]
  · unfold fieldBytes
    cases hv : pdufield.Map.lookup pdu.f k <;> simp
  · refine ⟨pre, post ++ tlvBytes pdu.t, ?_⟩
    rw [Codec.body_eq, hpp]
    simp
  · refine ⟨(pdu.SerializeTo P w).1.h.SerializeTo w ++ pre, post ++ tlvBytes pdu.t, ?_, ?_⟩
    · rw [Codec.SerializeTo_snd, Codec.body_eq, hpp]
      simp
    · simp [Header.SerializeTo, PutUint32]
  · intro hv
    refine ⟨?_, hnew k, ?_, ?_⟩
    · rw [hf]
      simp [hk, hv]
    · unfold fieldBytes
      rw [hv]
    · have hb : fieldBytes P pdu.f k = (P.New k).SerializeTo [] := by
        unfold fieldBytes
        rw [hv]
      rw [hb]
      exact isPlaceholder_bytes (P.New k) (hnew k)
  · intro k2 v hv
    rw [hf, hv]
    simp
  · intro k2 hk2
    rw [hf]
    simp [hk2]

/-- Witness of `SerializeTo_placeholders_allocated`: the BindResp that
`NewBindReceiverResp` returns (counter at 0), whose FieldMap `Init` has
allocated and left empty: `SerializeTo` returns, the placeholder of `system_id`
is stored, and its one zero octet is the body of the 17 octets written. -/
theorem SerializeTo_placeholders_allocated_witness :
    pdufield.Name.SystemID ∈ (NewBindReceiverResp 0).2.l ∧
    (∀ k2, (examplePkg.New k2).isPlaceholder = true) ∧
    Codec.SerializeToNil examplePkg false (NewBindReceiverResp 0).2 [] =
      some ((NewBindReceiverResp 0).2.SerializeTo examplePkg []) ∧
    pdufield.Map.lookup ((NewBindReceiverResp 0).2.SerializeTo examplePkg []).1.f
      pdufield.Name.SystemID = some (pdufield.Body.cstring []) ∧
    ((NewBindReceiverResp 0).2.SerializeTo examplePkg []).2 =
      [0, 0, 0, 17, 0x80, 0, 0, 1, 0, 0, 0, 0, 0, 0, 0, 1, 0] :=
  ⟨by decide, fun _ => rfl,
   (SerializeTo_placeholders_allocated examplePkg (NewBindReceiverResp 0).2 []
      pdufield.Name.SystemID (by decide) (fun _ => rfl)).1,
   (SerializeTo_placeholders_allocated examplePkg (NewBindReceiverResp 0).2 []
      pdufield.Name.SystemID (by decide) (fun _ => rfl)).2.1,
   by decide⟩

/-! ## The order of the TLV entries on the wire -/

theorem tlvBytes_length_perm (t1 t2 : pdutlv.Map) (h : t1.Perm t2) :
    (tlvBytes t1).length = (tlvBytes t2).length := by
  rw [tlvBytes_length_eq_sum, tlvBytes_length_eq_sum]
  exact (h.map _).sum_eq

theorem SerializeTo_eq_parts (P : FieldPkg) (pdu : Codec) (w : List Byte) :
    (pdu.SerializeTo P w).2 =
      w ++ PutUint32 (16 + unlistedLen [] (Codec.serializeFieldLoop P pdu.l pdu.f []).1
          + (tlvBytes pdu.t).length)
        ++ PutUint32 pdu.h.ID ++ PutUint32 pdu.h.Status ++ PutUint32 pdu.h.Seq
        ++ tableOrderBytes P pdu.f pdu.l ++ tlvBytes pdu.t := by
  rw [Codec.SerializeTo_snd, Codec.body_eq]
  have hlen : (pdu.SerializeTo P w).1.h.Len =
      (16 + unlistedLen [] (Codec.serializeFieldLoop P pdu.l pdu.f []).1
        + (tlvBytes pdu.t).length) % 4294967296 := by
    show (Codec.Len { pdu with f := (Codec.serializeFieldLoop P pdu.FieldList pdu.f []).1 })
        % 4294967296 = _
    rw [Codec.Len_eq]
    rfl
  have hid : (pdu.SerializeTo P w).1.h.ID = pdu.h.ID := rfl
  have hst : (pdu.SerializeTo P w).1.h.Status = pdu.h.Status := rfl
  have hsq : (pdu.SerializeTo P w).1.h.Seq = pdu.h.Seq := rfl
  have hmod : ∀ n : Nat, PutUint32 (n % 4294967296) = PutUint32 n := by
    intro n
    simp [PutUint32]
  simp only [Header.SerializeTo, hlen, hid, hst, hsq, hmod, List.append_assoc]

/-- C11 (counterexample): two messages with the same header, the same FieldMap
and the same two TLV entries, visited by `range` in the two possible orders,
are written as different octet sequences; the second one writes the tag 0x0210
before the tag 0x0005, which is not ascending. -/
theorem SerializeTo_tlv_order_differs :
    List.Perm [((0x0005 : pdutlv.Tag), pdutlv.Field.mk 0x0005 [0x01]),
               ((0x0210 : pdutlv.Tag), pdutlv.Field.mk 0x0210 [0x34])]
              [((0x0210 : pdutlv.Tag), pdutlv.Field.mk 0x0210 [0x34]),
               ((0x0005 : pdutlv.Tag), pdutlv.Field.mk 0x0005 [0x01])] ∧
    ((Codec.mk ⟨0, GenericNACKID, 0, 1⟩ [] []
        [(0x0005, ⟨0x0005, [0x01]⟩), (0x0210, ⟨0x0210, [0x34]⟩)]).SerializeTo examplePkg []).2
      = [0x00, 0x00, 0x00, 0x1A, 0x80, 0x00, 0x00, 0x00, 0x00, 0x00, 0x00, 0x00,
         0x00, 0x00, 0x00, 0x01, 0x00, 0x05, 0x00, 0x01, 0x01, 0x02, 0x10, 0x00, 0x01, 0x34] ∧
    ((Codec.mk ⟨0, GenericNACKID, 0, 1⟩ [] []
        [(0x0210, ⟨0x0210, [0x34]⟩), (0x0005, ⟨0x0005, [0x01]⟩)]).SerializeTo examplePkg []).2
      = [0x00, 0x00, 0x00, 0x1A, 0x80, 0x00, 0x00, 0x00, 0x00, 0x00, 0x00, 0x00,
         0x00, 0x00, 0x00, 0x01, 0x02, 0x10, 0x00, 0x01, 0x34, 0x00, 0x05, 0x00, 0x01, 0x01] :=
  ⟨List.Perm.swap _ _ _, by decide, by decide⟩

/-- C11 (as amended): `SerializeTo` writes the TLV entries in the order in
which `range` visits the TLV map, an order that Go leaves unspecified; it does
not sort them. Two messages with equal header, field table and FieldMap whose
TLV maps hold the same entries, visited in the orders `pdu.t` and `t2`, are
written with the same 16 header octets (the same `CommandLength` included) and
the same mandatory-field octets, followed by the encodings of the same TLV
entries, each message in its own order; the two outputs have the same length,
and they are equal when the orders are. -/
theorem SerializeTo_tlv_order (P : FieldPkg) (pdu : Codec) (t2 : pdutlv.Map) (w : List Byte)
    (hperm : t2.Perm pdu.t) :
    ∃ front : List Byte,
      front.length = w.length + 16 + (tableOrderBytes P pdu.f pdu.l).length ∧
      (pdu.SerializeTo P w).2 = front ++ tlvBytes pdu.t ∧
      ({ pdu with t := t2 }.SerializeTo P w).2 = front ++ tlvBytes t2 ∧
      (t2.map (fun kv => kv.2.SerializeTo [])).Perm (pdu.t.map (fun kv => kv.2.SerializeTo [])) ∧
      (tlvBytes t2).length = (tlvBytes pdu.t).length ∧
      ({ pdu with t := t2 }.SerializeTo P w).1.h = (pdu.SerializeTo P w).1.h ∧
      (t2 = pdu.t → ({ pdu with t := t2 }.SerializeTo P w).2 = (pdu.SerializeTo P w).2) := by
  have hlen := tlvBytes_length_perm t2 pdu.t hperm
  refine ⟨w ++ PutUint32 (16 + unlistedLen [] (Codec.serializeFieldLoop P pdu.l pdu.f []).1
          + (tlvBytes pdu.t).length)
        ++ PutUint32 pdu.h.ID ++ PutUint32 pdu.h.Status ++ PutUint32 pdu.h.Seq
        ++ tableOrderBytes P pdu.f pdu.l, ?_, SerializeTo_eq_parts P pdu w, ?_, hperm.map _,
        hlen, ?_, ?_⟩
  · simp [PutUint32]
    omega
  · rw [SerializeTo_eq_parts]
    simp only [hlen]
  · show Header.mk _ _ _ _ = Header.mk _ _ _ _
    have h1 : Codec.Len (Codec.mk pdu.h pdu.l (Codec.serializeFieldLoop P pdu.l pdu.f []).1 t2) =
        Codec.Len (Codec.mk pdu.h pdu.l (Codec.serializeFieldLoop P pdu.l pdu.f []).1 pdu.t) := by
      rw [Codec.Len_eq, Codec.Len_eq]
      simp only [hlen]
    simp only [Header.mk.injEq, and_true]
    exact congrArg (fun n => n % 4294967296) h1
  · intro h
    subst h
    rfl

/-- Witness of `SerializeTo_tlv_order`: the two orders of two TLV entries. -/
theorem SerializeTo_tlv_order_witness :
    List.Perm [((0x0210 : pdutlv.Tag), pdutlv.Field.mk 0x0210 [0x34]),
               ((0x0005 : pdutlv.Tag), pdutlv.Field.mk 0x0005 [0x01])]
              [((0x0005 : pdutlv.Tag), pdutlv.Field.mk 0x0005 [0x01]),
               ((0x0210 : pdutlv.Tag), pdutlv.Field.mk 0x0210 [0x34])] ∧
    ∃ front : List Byte,
      front.length = 0 + 16 + 0 ∧
      ((Codec.mk ⟨0, GenericNACKID, 0, 1⟩ [] []
          [(0x0005, ⟨0x0005, [0x01]⟩), (0x0210, ⟨0x0210, [0x34]⟩)]).SerializeTo examplePkg []).2
        = front ++ [0x00, 0x05, 0x00, 0x01, 0x01, 0x02, 0x10, 0x00, 0x01, 0x34] ∧
      ((Codec.mk ⟨0, GenericNACKID, 0, 1⟩ [] []
          [(0x0210, ⟨0x0210, [0x34]⟩), (0x0005, ⟨0x0005, [0x01]⟩)]).SerializeTo examplePkg []).2
        = front ++ [0x02, 0x10, 0x00, 0x01, 0x34, 0x00, 0x05, 0x00, 0x01, 0x01] :=
  ⟨List.Perm.swap _ _ _,
   (SerializeTo_tlv_order examplePkg
      (Codec.mk ⟨0, GenericNACKID, 0, 1⟩ [] []
        [(0x0005, ⟨0x0005, [0x01]⟩), (0x0210, ⟨0x0210, [0x34]⟩)])
      [(0x0210, ⟨0x0210, [0x34]⟩), (0x0005, ⟨0x0005, [0x01]⟩)] []
      (List.Perm.swap _ _ _)).imp
     (fun _ h => ⟨h.1, h.2.1, h.2.2.1⟩)⟩

/-! ## Decoding: no partial result -/

theorem switch_cases (P : FieldPkg) (header : Header) (raw r2 : List Byte) :
    Decode.switch P header raw r2 =
        ⟨none, some header, some raw, some (.notImplemented header.ID), r2⟩ ∨
    (∃ shell, Decode.switch P header raw r2 = Decode.fields P shell header raw r2) ∨
    Decode.switch P header raw r2 =
        ⟨none, some header, some raw, some (.unknownPDU header.ID), r2⟩ := by
  unfold Decode.switch
  simp only []
  by_cases c1 : header.ID = AlertNotificationID
  · rw [if_pos c1]; exact Or.inl rfl
  rw [if_neg c1]
  by_cases c2 : header.ID = BindReceiverID ∨ header.ID = BindTransceiverID ∨ header.ID = BindTransmitterID
  · rw [if_pos c2]; exact Or.inr (Or.inl ⟨_, rfl⟩)
  rw [if_neg c2]
  by_cases c3 : header.ID = BindReceiverRespID ∨ header.ID = BindTransceiverRespID ∨
      header.ID = BindTransmitterRespID
  · rw [if_pos c3]; exact Or.inr (Or.inl ⟨_, rfl⟩)
  rw [if_neg c3]
  by_cases c4 : header.ID = CancelSMID
  · rw [if_pos c4]; exact Or.inl rfl
  rw [if_neg c4]
  by_cases c5 : header.ID = CancelSMRespID
  · rw [if_pos c5]; exact Or.inl rfl
  rw [if_neg c5]
  by_cases c6 : header.ID = DataSMID
  · rw [if_pos c6]; exact Or.inl rfl
  rw [if_neg c6]
  by_cases c7 : header.ID = DataSMRespID
  · rw [if_pos c7]; exact Or.inl rfl
  rw [if_neg c7]
  by_cases c8 : header.ID = DeliverSMID
  · rw [if_pos c8]; exact Or.inr (Or.inl ⟨_, rfl⟩)
  rw [if_neg c8]
  by_cases c9 : header.ID = DeliverSMRespID
  · rw [if_pos c9]; exact Or.inr (Or.inl ⟨_, rfl⟩)
  rw [if_neg c9]
  by_cases c10 : header.ID = EnquireLinkID
  · rw [if_pos c10]; exact Or.inr (Or.inl ⟨_, rfl⟩)
  rw [if_neg c10]
  by_cases c11 : header.ID = EnquireLinkRespID
  · rw [if_pos c11]; exact Or.inr (Or.inl ⟨_, rfl⟩)
  rw [if_neg c11]
  by_cases c12 : header.ID = GenericNACKID
  · rw [if_pos c12]; exact Or.inr (Or.inl ⟨_, rfl⟩)
  rw [if_neg c12]
  by_cases c13 : header.ID = OutbindID
  · rw [if_pos c13]; exact Or.inl rfl
  rw [if_neg c13]
  by_cases c14 : header.ID = QuerySMID
  · rw [if_pos c14]; exact Or.inr (Or.inl ⟨_, rfl⟩)
  rw [if_neg c14]
  by_cases c15 : header.ID = QuerySMRespID
  · rw [if_pos c15]; exact Or.inr (Or.inl ⟨_, rfl⟩)
  rw [if_neg c15]
  by_cases c16 : header.ID = ReplaceSMID
  · rw [if_pos c16]; exact Or.inl rfl
  rw [if_neg c16]
  by_cases c17 : header.ID = ReplaceSMRespID
  · rw [if_pos c17]; exact Or.inl rfl
  rw [if_neg c17]
  by_cases c18 : header.ID = SubmitMultiID
  · rw [if_pos c18]; exact Or.inr (Or.inl ⟨_, rfl⟩)
  rw [if_neg c18]
  by_cases c19 : header.ID = SubmitMultiRespID
  · rw [if_pos c19]; exact Or.inr (Or.inl ⟨_, rfl⟩)
  rw [if_neg c19]
  by_cases c20 : header.ID = SubmitSMID
  · rw [if_pos c20]; exact Or.inr (Or.inl ⟨_, rfl⟩)
  rw [if_neg c20]
  by_cases c21 : header.ID = SubmitSMRespID
  · rw [if_pos c21]; exact Or.inr (Or.inl ⟨_, rfl⟩)
  rw [if_neg c21]
  by_cases c22 : header.ID = UnbindID
  · rw [if_pos c22]; exact Or.inr (Or.inl ⟨_, rfl⟩)
  rw [if_neg c22]
  by_cases c23 : header.ID = UnbindRespID
  · rw [if_pos c23]; exact Or.inr (Or.inl ⟨_, rfl⟩)
  rw [if_neg c23]
  exact Or.inr (Or.inr rfl)

theorem DecodeFields_ok_iff (P : FieldPkg) (pdu pdu2 : Codec) (b : List Byte) :
    DecodeFields P pdu b = .ok pdu2 ↔
      ∃ f r1 t, P.Decode pdu.FieldList b = .ok (f, r1) ∧ pdutlv.DecodeTLV r1 = .ok t ∧
        pdu2 = pdu.Setup f t := by
  unfold DecodeFields
  cases hd : P.Decode pdu.FieldList b with
  | error e => simp [hd]
  | ok fr =>
      obtain ⟨f, r1⟩ := fr
      cases ht : pdutlv.DecodeTLV r1 with
      | error e => simp [hd, ht]
      | ok t =>
          simp only [hd, ht, Except.ok.injEq, Prod.mk.injEq]
          constructor
          · intro h
            exact ⟨f, r1, t, ⟨rfl, rfl⟩, ht, h.symm⟩
          · rintro ⟨f2, r2, t2, ⟨hf, hr⟩, ht2, h2⟩
            subst hf hr
            rw [ht] at ht2
            cases ht2
            exact h2.symm

theorem Decode_fields_decoded (P : FieldPkg) (shell : Codec) (header : Header)
    (raw r2 : List Byte) :
    (Decode.fields P shell header raw r2).decoded = none ↔
      (Decode.fields P shell header raw r2).err ≠ none := by
  unfold Decode.fields
  cases DecodeFields P shell raw <;> simp

theorem switch_decoded (P : FieldPkg) (header : Header) (raw r2 : List Byte) :
    (Decode.switch P header raw r2).decoded = none ↔
      (Decode.switch P header raw r2).err ≠ none := by
  rcases switch_cases P header raw r2 with h | ⟨shell, h⟩ | h
  · rw [h]; simp
  · rw [h]; exact Decode_fields_decoded P shell header raw r2
  · rw [h]; simp

theorem readBody_decoded (P : FieldPkg) (header : Header) (r1 : List Byte) :
    (Decode.readBody P header r1).decoded = none ↔ (Decode.readBody P header r1).err ≠ none := by
  unfold Decode.readBody
  generalize ReadFull r1 ((header.Len + 4294967296 - HeaderLen) % 4294967296) = rf
  obtain ⟨raw, e, r2⟩ := rf
  cases e with
  | some e => simp [Decode.afterRead]
  | none => exact switch_decoded P header raw r2

/-- C15: `Decode` never returns a partial result. For every source the decoded
message is absent exactly when an error is returned, whatever the error is
(truncated header, short body, truncated mandatory field, truncated TLV,
unknown or unimplemented id); and `DecodeFields` returns the message, with the
decoded FieldMap and TLVMap installed by `Setup`, exactly when both the
mandatory-field decoder and the TLV decoder succeeded, and returns no message
otherwise. -/
theorem Decode_no_partial_result (P : FieldPkg) (r : List Byte) (pdu : Codec) (b : List Byte) :
    ((Decode P r).decoded = none ↔ (Decode P r).err ≠ none) ∧
    (∀ pdu2, DecodeFields P pdu b = .ok pdu2 ↔
      ∃ f r1 t, P.Decode pdu.FieldList b = .ok (f, r1) ∧ pdutlv.DecodeTLV r1 = .ok t ∧
        pdu2 = pdu.Setup f t) ∧
    (∀ f a0 a1, P.Decode pdu.FieldList b = .ok (f, [a0, a1]) →
      DecodeFields P pdu b = .error .tlvTruncated) := by
  refine ⟨?_, fun pdu2 => DecodeFields_ok_iff P pdu pdu2 b, ?_⟩
  · unfold Decode
    cases hd : DecodeHeader r with
    | error e => simp
    | ok hr =>
        obtain ⟨header, r1⟩ := hr
        exact readBody_decoded P header r1
  · intro f a0 a1 h
    unfold DecodeFields
    simp only [h]
    rfl

/-- Witness of `Decode_no_partial_result`: a GenericNACK frame whose body ends
two octets into the header of a TLV entry. `Decode` fails with the truncated
TLV error and returns no message. -/
theorem Decode_no_partial_result_witness :
    (Decode examplePkg [0, 0, 0, 18, 0x80, 0, 0, 0, 0, 0, 0, 0, 0, 0, 0, 1, 0x02, 0x10]).err
      = some .tlvTruncated ∧
    (Decode examplePkg [0, 0, 0, 18, 0x80, 0, 0, 0, 0, 0, 0, 0, 0, 0, 0, 1, 0x02, 0x10]).decoded
      = none :=
  ⟨by decide,
   (Decode_no_partial_result examplePkg
      [0, 0, 0, 18, 0x80, 0, 0, 0, 0, 0, 0, 0, 0, 0, 0, 1, 0x02, 0x10]
      (newGenericNACK ⟨18, GenericNACKID, 0, 1⟩) [0x02, 0x10]).1.2 (by decide)⟩

/-! ## Decoding: short body -/

/-- C16: for every header with `CommandLength >= 16` and every source that
holds fewer than `CommandLength - 16` octets after the header, `Decode` fails
with the error of `io.ReadFull` (`io.EOF` when no body octet is available,
`io.ErrUnexpectedEOF` otherwise) and returns no decoded message. The command
id plays no part: the body is read before the id is looked at, so this holds
for every id, known, unknown or unimplemented. -/
theorem Decode_short_body (P : FieldPkg) (r : List Byte) (header : Header) (r1 : List Byte)
    (hh : DecodeHeader r = .ok (header, r1)) (hlen : 16 ≤ header.Len)
    (hshort : r1.length < header.Len - 16) :
    (Decode P r).err = some (if r1.length = 0 then Error.EOF else Error.ErrUnexpectedEOF) ∧
    (Decode P r).decoded = none ∧
    (Decode P r).header = some header ∧
    (Decode P r).rest = [] := by
  obtain ⟨hlt, hr1, hlen1⟩ := DecodeHeader_ok r header r1 hh
  have hn : (header.Len + 4294967296 - HeaderLen) % 4294967296 = header.Len - 16 := by
    have h16 : HeaderLen = 16 := rfl
    rw [h16]
    omega
  have hle : ¬ header.Len - 16 ≤ r1.length := by omega
  have hrf : ReadFull r1 (header.Len - 16) =
      (r1 ++ List.replicate (header.Len - 16 - r1.length) 0,
        some (if r1.length = 0 then Error.EOF else Error.ErrUnexpectedEOF), []) := by
    unfold ReadFull
    rw [if_neg hle]
  have h1 : Decode P r = Decode.readBody P header r1 := by
    unfold Decode
    rw [hh]
  rw [h1, Decode.readBody, hn, hrf, Decode.afterRead]
  exact ⟨rfl, rfl, rfl, rfl⟩

/-- Witness of `Decode_short_body`: a header that declares the length 20 with
the unknown command id 0x12345678, followed by two of the four body octets. -/
theorem Decode_short_body_witness :
    DecodeHeader [0, 0, 0, 20, 0x12, 0x34, 0x56, 0x78, 0, 0, 0, 0, 0, 0, 0, 1, 0xAA, 0xBB]
      = .ok (⟨20, 0x12345678, 0, 1⟩, [0xAA, 0xBB]) ∧
    (Decode examplePkg
        [0, 0, 0, 20, 0x12, 0x34, 0x56, 0x78, 0, 0, 0, 0, 0, 0, 0, 1, 0xAA, 0xBB]).err
      = some Error.ErrUnexpectedEOF ∧
    (Decode examplePkg
        [0, 0, 0, 20, 0x12, 0x34, 0x56, 0x78, 0, 0, 0, 0, 0, 0, 0, 1, 0xAA, 0xBB]).decoded
      = none :=
  ⟨rfl,
   (Decode_short_body examplePkg
      [0, 0, 0, 20, 0x12, 0x34, 0x56, 0x78, 0, 0, 0, 0, 0, 0, 0, 1, 0xAA, 0xBB]
      ⟨20, 0x12345678, 0, 1⟩ [0xAA, 0xBB] rfl (by decide) (by decide)).1,
   (Decode_short_body examplePkg
      [0, 0, 0, 20, 0x12, 0x34, 0x56, 0x78, 0, 0, 0, 0, 0, 0, 0, 1, 0xAA, 0xBB]
      ⟨20, 0x12345678, 0, 1⟩ [0xAA, 0xBB] rfl (by decide) (by decide)).2.1⟩

/-! ## The command ids and the dispatch of `Decode` -/

theorem switch_typeOfID (P : FieldPkg) (header : Header) (raw r2 : List Byte)
    (e : Nat × (Header → Codec)) (he : e ∈ typeOfID) (hid : header.ID = e.1) :
    Decode.switch P header raw r2 = Decode.fields P (e.2 header) header raw r2 := by
  simp only [typeOfID, List.mem_cons, List.mem_singleton, List.not_mem_nil, or_false] at he
  rcases he with h | h | h | h | h | h | h | h | h | h | h | h | h | h | h | h | h | h | h <;>
    (subst h
     simp [Decode.switch, hid, AlertNotificationID, BindReceiverID, BindTransceiverID,
      BindTransmitterID, BindReceiverRespID, BindTransceiverRespID, BindTransmitterRespID,
      CancelSMID, CancelSMRespID, DataSMID, DataSMRespID, DeliverSMID, DeliverSMRespID,
      EnquireLinkID, EnquireLinkRespID, GenericNACKID, OutbindID, QuerySMID, QuerySMRespID,
      ReplaceSMID, ReplaceSMRespID, SubmitMultiID, SubmitMultiRespID, SubmitSMID,
      SubmitSMRespID, UnbindID, UnbindRespID])

/-- C17: in the command-id table every request id has bit 31 clear and every
response id is the id of its request with bit 31 set; GenericNACK is
0x80000000; the 27 id constants are pairwise different; and for every id that
the switch of `Decode` dispatches, the shell that is built is the shell of the
PDU type that the id names in `types.go`, so a request id is never decoded with
the table of its response and a response id never with the table of its
request. -/
theorem command_ids (P : FieldPkg) (header : Header) (raw r2 : List Byte) :
    (∀ id ∈ requestIDs, id &&& 0x80000000 = 0) ∧
    (∀ p ∈ requestResponseIDs, p.2 = p.1 ||| 0x80000000) ∧
    GenericNACKID = 0x80000000 ∧
    allIDs.length = 27 ∧ allIDs.Nodup ∧
    (∀ id ∈ allIDs, id ∈ requestIDs ∨ id ∈ requestResponseIDs.map Prod.snd ∨
      id = GenericNACKID) ∧
    (∀ e ∈ typeOfID, header.ID = e.1 →
      Decode.switch P header raw r2 = Decode.fields P (e.2 header) header raw r2) := by
  refine ⟨by decide, by decide, rfl, rfl, by decide, by decide, ?_⟩
  intro e he hid
  exact switch_typeOfID P header raw r2 e he hid

/-- Witness of `command_ids`: a SubmitSMResp header is decoded with the table
of SubmitSMResp, and a SubmitSM header with the table of SubmitSM. -/
theorem command_ids_witness :
    Decode.switch examplePkg ⟨16, SubmitSMRespID, 0, 1⟩ [] [] =
      Decode.fields examplePkg (newSubmitSMResp ⟨16, SubmitSMRespID, 0, 1⟩)
        ⟨16, SubmitSMRespID, 0, 1⟩ [] [] ∧
    Decode.switch examplePkg ⟨16, SubmitSMID, 0, 1⟩ [] [] =
      Decode.fields examplePkg (newSubmitSM ⟨16, SubmitSMID, 0, 1⟩)
        ⟨16, SubmitSMID, 0, 1⟩ [] [] :=
  ⟨(command_ids examplePkg ⟨16, SubmitSMRespID, 0, 1⟩ [] []).2.2.2.2.2.2
      (SubmitSMRespID, newSubmitSMResp) (by simp [typeOfID]) rfl,
   (command_ids examplePkg ⟨16, SubmitSMID, 0, 1⟩ [] []).2.2.2.2.2.2
      (SubmitSMID, newSubmitSM) (by simp [typeOfID]) rfl⟩

/-! ## The field tables -/

theorem fieldTables_const (hdr : Header) : fieldTables hdr = fieldTables ⟨0, 0, 0, 0⟩ := rfl

/-- C19: in the field table of every shell of `types.go`, each length-governed
field comes immediately after the field that supplies its length: SMLength
immediately before ShortMessage (SubmitSM, SubmitMulti, DeliverSM), NumberDests
immediately before DestinationList (SubmitMulti), NoUnsuccess immediately
before UnsuccessSme (SubmitMultiResp); no other table names a length-governed
field; and the tables of SubmitSM and DeliverSM are the same. -/
theorem fieldTables_length_fields (hdr : Header) :
    (∀ l ∈ fieldTables hdr,
      (pdufield.Name.ShortMessage ∈ l →
        adjacent pdufield.Name.SMLength pdufield.Name.ShortMessage l = true) ∧
      (pdufield.Name.DestinationList ∈ l →
        adjacent pdufield.Name.NumberDests pdufield.Name.DestinationList l = true) ∧
      (pdufield.Name.UnsuccessSme ∈ l →
        adjacent pdufield.Name.NoUnsuccess pdufield.Name.UnsuccessSme l = true)) ∧
    adjacent pdufield.Name.SMLength pdufield.Name.ShortMessage (newSubmitSM hdr).l = true ∧
    adjacent pdufield.Name.SMLength pdufield.Name.ShortMessage (newSubmitMulti hdr).l = true ∧
    adjacent pdufield.Name.SMLength pdufield.Name.ShortMessage (newDeliverSM hdr).l = true ∧
    adjacent pdufield.Name.NumberDests pdufield.Name.DestinationList (newSubmitMulti hdr).l
      = true ∧
    adjacent pdufield.Name.NoUnsuccess pdufield.Name.UnsuccessSme (newSubmitMultiResp hdr).l
      = true ∧
    (newSubmitSM hdr).l = (newDeliverSM hdr).l := by
  refine ⟨?_, rfl, rfl, rfl, rfl, rfl, rfl⟩
  rw [fieldTables_const]
  decide

/-- Witness of `fieldTables_length_fields`: the table of SubmitMulti names two
length-governed fields. -/
theorem fieldTables_length_fields_witness :
    (newSubmitMulti ⟨0, SubmitMultiID, 0, 0⟩).l ∈ fieldTables ⟨0, SubmitMultiID, 0, 0⟩ ∧
    pdufield.Name.ShortMessage ∈ (newSubmitMulti ⟨0, SubmitMultiID, 0, 0⟩).l ∧
    adjacent pdufield.Name.SMLength pdufield.Name.ShortMessage
      (newSubmitMulti ⟨0, SubmitMultiID, 0, 0⟩).l = true :=
  ⟨by decide, by decide,
   ((fieldTables_length_fields ⟨0, SubmitMultiID, 0, 0⟩).1 _ (by decide)).1 (by decide)⟩

/-! ## Tag names: `Tag.String`, `Tag.Hex` -/

/-- C20 (the code at the failing inputs): for the tag 0x020B `Tag.String`
returns "destination_port " with a trailing space, 17 characters of which the
last is not a letter, a digit or an underscore; for the tag 0x0422 it returns
"ms_availablity_status", which is not the name "ms_availability_status". -/
theorem Tag_String_misspelt :
    pdutlv.Tag.String pdutlv.TagDestinationPort = "destination_port " ∧
    pdutlv.Tag.String pdutlv.TagDestinationPort ≠ "destination_port" ∧
    (pdutlv.Tag.String pdutlv.TagDestinationPort).data.all isNameChar = false ∧
    pdutlv.Tag.String pdutlv.TagMsAvailabilityStatus = "ms_availablity_status" ∧
    pdutlv.Tag.String pdutlv.TagMsAvailabilityStatus ≠ "ms_availability_status" := by
  decide

/-- The 41 other cases of `Tag.String` return a name made only of lowercase
letters, digits and underscores. -/
theorem Tag_String_other_names :
    ∀ c ∈ pdutlv.Tag.cases, c.1 ≠ pdutlv.TagDestinationPort →
      pdutlv.Tag.String c.1 = c.2 ∧ c.2.data.all isNameChar = true := by
  decide

theorem hexDigit_isHexChar (n : Nat) : isHexChar (pdutlv.hexDigit n) = true := by
  have h : n % 16 < 16 := Nat.mod_lt _ (by decide)
  unfold pdutlv.hexDigit
  generalize n % 16 = m at h
  interval_cases m <;> decide

/-- The default case of `Tag.String`: a tag that is not the tag of a case is
rendered by `Tag.Hex`, four lowercase hexadecimal digits, the big-endian value
of the tag. -/
theorem Tag_String_default (t : pdutlv.Tag) (h : ∀ c ∈ pdutlv.Tag.cases, c.1 ≠ t) :
    pdutlv.Tag.String t = pdutlv.Tag.Hex t ∧
    (pdutlv.Tag.Hex t).data =
      [pdutlv.hexDigit (t.val / 4096), pdutlv.hexDigit (t.val / 256),
       pdutlv.hexDigit (t.val / 16), pdutlv.hexDigit t.val] ∧
    (pdutlv.Tag.Hex t).data.all isHexChar = true := by
  have hfind : pdutlv.Tag.cases.find? (fun c => c.1 = t) = none := by
    rw [List.find?_eq_none]
    intro c hc
    simpa using h c hc
  have hdata : (pdutlv.Tag.Hex t).data =
      [pdutlv.hexDigit (t.val / 4096), pdutlv.hexDigit (t.val / 256),
       pdutlv.hexDigit (t.val / 16), pdutlv.hexDigit t.val] := by
    have ht := t.isLt
    simp only [pdutlv.Tag.Hex, PutUint16, pdutlv.hexChars, byte, pdutlv.hexDigit]
    have e1 : t.val % 65536 / 256 % 256 / 16 % 16 = t.val / 4096 % 16 := by omega
    have e2 : t.val % 65536 / 256 % 256 % 16 % 16 = t.val / 256 % 16 := by omega
    have e3 : t.val % 65536 % 256 / 16 % 16 = t.val / 16 % 16 := by omega
    have e4 : t.val % 65536 % 256 % 16 % 16 = t.val % 16 := by omega
    rw [e1, e2, e3, e4]
  refine ⟨?_, hdata, ?_⟩
  · unfold pdutlv.Tag.String
    rw [hfind]
  · rw [hdata]
    simp [hexDigit_isHexChar]

/-! ## Round trip: `Decode` after `SerializeTo` -/

theorem serializeFieldLoop_congr_pkg (P Q : FieldPkg) (ks : List pdufield.Name) :
    ∀ (f : pdufield.Map) (b : List Byte), (∀ k ∈ ks, pdufield.Map.lookup f k ≠ none) →
      Codec.serializeFieldLoop P ks f b = Codec.serializeFieldLoop Q ks f b := by
  induction ks with
  | nil => intro f b _; rfl
  | cons k ks ih =>
      intro f b h
      cases hv : pdufield.Map.lookup f k with
      | some v =>
          simp only [Codec.serializeFieldLoop, hv]
          exact ih f _ (fun k2 hk2 => h k2 (List.mem_cons_of_mem _ hk2))
      | none => exact absurd hv (h k (List.mem_cons_self _ _))

theorem SerializeTo_congr_pkg (P Q : FieldPkg) (pdu : Codec) (w : List Byte)
    (h : ∀ k ∈ pdu.l, pdufield.Map.lookup pdu.f k ≠ none) :
    pdu.SerializeTo P w = pdu.SerializeTo Q w := by
  unfold Codec.SerializeTo Codec.FieldList
  rw [serializeFieldLoop_congr_pkg P Q pdu.l pdu.f [] h]

/-- C18 (the code at the failing input): a DataSMResp with sequence number 1,
an empty message id and the TLV entry receipted_message_id = "id\0" is written
by `SerializeTo` as a frame of 24 octets, and `Decode` of that frame fails with
"PDU not implemented" and returns no message. -/
theorem Decode_SerializeTo_DataSMResp (P : FieldPkg) :
    ((Codec.mk ⟨0, DataSMRespID, 0, 1⟩ [pdufield.Name.MessageID]
        [(pdufield.Name.MessageID, pdufield.Body.cstring [])]
        [(pdutlv.TagReceiptedMessageID,
          ⟨pdutlv.TagReceiptedMessageID, [0x69, 0x64, 0x00]⟩)]).SerializeTo P []).2
      = [0x00, 0x00, 0x00, 0x18, 0x80, 0x00, 0x01, 0x03, 0x00, 0x00, 0x00, 0x00,
         0x00, 0x00, 0x00, 0x01, 0x00, 0x00, 0x1E, 0x00, 0x03, 0x69, 0x64, 0x00] ∧
    Decode P ((Codec.mk ⟨0, DataSMRespID, 0, 1⟩ [pdufield.Name.MessageID]
        [(pdufield.Name.MessageID, pdufield.Body.cstring [])]
        [(pdutlv.TagReceiptedMessageID,
          ⟨pdutlv.TagReceiptedMessageID, [0x69, 0x64, 0x00]⟩)]).SerializeTo P []).2
      = ⟨none, some ⟨24, DataSMRespID, 0, 1⟩,
         some [0x00, 0x00, 0x1E, 0x00, 0x03, 0x69, 0x64, 0x00],
         some (.notImplemented DataSMRespID), []⟩ := by
  have hout : ((Codec.mk ⟨0, DataSMRespID, 0, 1⟩ [pdufield.Name.MessageID]
        [(pdufield.Name.MessageID, pdufield.Body.cstring [])]
        [(pdutlv.TagReceiptedMessageID,
          ⟨pdutlv.TagReceiptedMessageID, [0x69, 0x64, 0x00]⟩)]).SerializeTo P []).2
      = [0x00, 0x00, 0x00, 0x18, 0x80, 0x00, 0x01, 0x03, 0x00, 0x00, 0x00, 0x00,
         0x00, 0x00, 0x00, 0x01, 0x00, 0x00, 0x1E, 0x00, 0x03, 0x69, 0x64, 0x00] := by
    rw [SerializeTo_congr_pkg P examplePkg _ _ (by decide)]
    decide
  refine ⟨hout, ?_⟩
  rw [hout, Decode_of_available P
      [0x00, 0x00, 0x00, 0x18, 0x80, 0x00, 0x01, 0x03, 0x00, 0x00, 0x00, 0x00,
       0x00, 0x00, 0x00, 0x01, 0x00, 0x00, 0x1E, 0x00, 0x03, 0x69, 0x64, 0x00]
      ⟨24, DataSMRespID, 0, 1⟩
      [0x00, 0x00, 0x1E, 0x00, 0x03, 0x69, 0x64, 0x00] rfl (by decide) (by decide),
    switch_DataSM P _ _ _ (Or.inr rfl)]
  rfl

theorem Uint32_PutUint32 (n : Nat) :
    Uint32 (byte (n % 4294967296 / 16777216)) (byte (n % 4294967296 / 65536))
      (byte (n % 4294967296 / 256)) (byte (n % 4294967296)) = n % 4294967296 := by
  simp only [Uint32, byte]
  omega

theorem DecodeHeader_SerializeTo (h : Header) (rest : List Byte) :
    DecodeHeader (h.SerializeTo [] ++ rest) =
      .ok (⟨h.Len % 4294967296, h.ID % 4294967296, h.Status % 4294967296,
            h.Seq % 4294967296⟩, rest) := by
  simp only [Header.SerializeTo, PutUint32, List.nil_append, List.cons_append, DecodeHeader,
    Uint32_PutUint32]

theorem tlv_Set_of_not_mem (acc : pdutlv.Map) (k : pdutlv.Tag) (v : pdutlv.Field)
    (h : k ∉ acc.map Prod.fst) : pdutlv.Map.Set acc k v = acc ++ [(k, v)] := by
  induction acc with
  | nil => rfl
  | cons e acc ih =>
      obtain ⟨k1, v1⟩ := e
      simp only [List.map_cons, List.mem_cons, not_or] at h
      have hne : ¬ k1 = k := fun hk => h.1 hk.symm
      simp [pdutlv.Map.Set, hne, ih h.2]

theorem DecodeTLVLoop_tlvBytes (t : pdutlv.Map) :
    ∀ (acc : pdutlv.Map) (fuel : Nat), (tlvBytes t).length ≤ fuel →
      (acc.map Prod.fst ++ t.map Prod.fst).Nodup →
      (∀ kv ∈ t, kv.2.Tag = kv.1 ∧ kv.2.Data.length < 65536) →
      pdutlv.DecodeTLVLoop fuel (tlvBytes t) acc = .ok (acc ++ t) := by
  induction t with
  | nil =>
      intro acc fuel _ _ _
      simp [tlvBytes, pdutlv.DecodeTLVLoop_nil]
  | cons e t ih =>
      intro acc fuel hfuel hnd hval
      obtain ⟨k, v⟩ := e
      obtain ⟨htag, hlen⟩ := hval (k, v) (List.mem_cons_self _ _)
      simp only at htag hlen
      have hbytes : tlvBytes ((k, v) :: t) =
          byte (v.Tag.val % 65536 / 256) :: byte (v.Tag.val % 65536) ::
          byte (v.Data.length % 65536 / 256) :: byte (v.Data.length % 65536) ::
          (v.Data ++ tlvBytes t) := by
        simp [tlvBytes, pdutlv.Field.SerializeTo_eq]
      rw [hbytes] at hfuel ⊢
      simp only [List.length_cons, List.length_append] at hfuel
      obtain ⟨fuel1, rfl⟩ : ∃ f1, fuel = f1 + 1 := ⟨fuel - 1, by omega⟩
      have hl : Uint16 (byte (v.Data.length % 65536 / 256)) (byte (v.Data.length % 65536))
          = v.Data.length := Uint16_PutUint16 _ hlen
      have ht : Uint16 (byte (v.Tag.val % 65536 / 256)) (byte (v.Tag.val % 65536))
          = v.Tag.val := Uint16_PutUint16 _ v.Tag.isLt
      have hfin : (⟨v.Tag.val % 65536, Nat.mod_lt _ (by decide)⟩ : pdutlv.Tag) = k := by
        rw [← htag]
        exact Fin.ext (Nat.mod_eq_of_lt v.Tag.isLt)
      have hv : (⟨k, v.Data⟩ : pdutlv.Field) = v := by
        rw [← htag]
      have hk : k ∉ acc.map Prod.fst := by
        intro hmem
        rw [List.nodup_append] at hnd
        exact hnd.2.2 hmem (by simp)
      have hnd2 : ((acc ++ [(k, v)]).map Prod.fst ++ t.map Prod.fst).Nodup := by
        simpa [List.map_append] using hnd
      rw [pdutlv.DecodeTLVLoop_step]
      simp only [hl, ht, hfin, hv, List.length_append, List.drop_left, List.take_left,
        tlv_Set_of_not_mem acc k v hk]
      rw [if_neg (by omega)]
      rw [ih (acc ++ [(k, v)]) fuel1 (by omega) hnd2
        (fun kv hkv => hval kv (List.mem_cons_of_mem _ hkv))]
      simp

theorem DecodeTLV_tlvBytes (t : pdutlv.Map) (hnd : (t.map Prod.fst).Nodup)
    (hval : ∀ kv ∈ t, kv.2.Tag = kv.1 ∧ kv.2.Data.length < 65536) :
    pdutlv.DecodeTLV (tlvBytes t) = .ok t := by
  unfold pdutlv.DecodeTLV
  rw [DecodeTLVLoop_tlvBytes t [] _ (Nat.le_refl _) (by simpa using hnd) hval]
  simp

theorem typeOfID_shell (e : Nat × (Header → Codec)) (he : e ∈ typeOfID) (h1 h2 : Header) :
    (e.2 h1).l = (e.2 h2).l ∧ (e.2 h1).h = h1 ∧ (e.2 ⟨0, 0, 0, 0⟩).l.Nodup ∧
      e.1 < 4294967296 := by
  simp only [typeOfID, List.mem_cons, List.mem_singleton, List.not_mem_nil, or_false] at he
  rcases he with h | h | h | h | h | h | h | h | h | h | h | h | h | h | h | h | h | h | h <;>
    (subst h; exact ⟨rfl, rfl, by decide, by decide⟩)

/-- The round trip of the envelope, for the ids that `Decode` dispatches. Let
`pdu` be a message of a dispatched type whose FieldMap holds values only for
names of its table, whose TLV entries are stored under their own tag with
payloads of fewer than 65536 octets, and whose frame is shorter than `2 ^ 32`
octets; and suppose that the mandatory-field decoder, applied to the body,
returns a map `fdec` and leaves exactly the TLV octets. Then `Decode` of what
`SerializeTo` wrote succeeds with the header that `SerializeTo` left in the
message, the map `fdec`, the same TLV entries and the body as `raw`, and
consumes the whole frame. -/
theorem Decode_SerializeTo_dispatched (P : FieldPkg) (pdu : Codec)
    (e : Nat × (Header → Codec)) (he : e ∈ typeOfID) (hid : pdu.h.ID = e.1)
    (hl : pdu.l = (e.2 pdu.h).l)
    (hst : pdu.h.Status < 4294967296) (hsq : pdu.h.Seq < 4294967296)
    (hfnd : (pdu.f.map Prod.fst).Nodup) (hsub : ∀ kv ∈ pdu.f, kv.1 ∈ pdu.l)
    (hlt : 16 + (Codec.body P pdu).length < 4294967296)
    (htnd : (pdu.t.map Prod.fst).Nodup)
    (htval : ∀ kv ∈ pdu.t, kv.2.Tag = kv.1 ∧ kv.2.Data.length < 65536)
    (fdec : pdufield.Map)
    (hdec : P.Decode pdu.l (Codec.body P pdu) = .ok (fdec, tlvBytes pdu.t)) :
    Decode P (pdu.SerializeTo P []).2 =
      ⟨some ⟨(pdu.SerializeTo P []).1.h, pdu.l, fdec, pdu.t⟩, some (pdu.SerializeTo P []).1.h,
        some (Codec.body P pdu), none, []⟩ := by
  obtain ⟨hl2, hh2, hnd, hidlt⟩ := typeOfID_shell e he (pdu.SerializeTo P []).1.h pdu.h
  have hlnd : pdu.l.Nodup := by
    rw [hl, (typeOfID_shell e he pdu.h ⟨0, 0, 0, 0⟩).1]; exact hnd
  obtain ⟨hLen, hOut⟩ := SerializeTo_Len_of_listed P pdu [] hlnd hfnd hsub hlt
  have hID : (pdu.SerializeTo P []).1.h.ID = pdu.h.ID := rfl
  have hStatus : (pdu.SerializeTo P []).1.h.Status = pdu.h.Status := rfl
  have hSeq : (pdu.SerializeTo P []).1.h.Seq = pdu.h.Seq := rfl
  have hhdr : DecodeHeader (pdu.SerializeTo P []).2 =
      .ok ((pdu.SerializeTo P []).1.h, Codec.body P pdu) := by
    rw [Codec.SerializeTo_snd, DecodeHeader_SerializeTo]
    have e1 : (pdu.SerializeTo P []).1.h.Len % 4294967296 = (pdu.SerializeTo P []).1.h.Len := by
      rw [hLen]; exact Nat.mod_eq_of_lt hlt
    have e2 : (pdu.SerializeTo P []).1.h.ID % 4294967296 = (pdu.SerializeTo P []).1.h.ID := by
      rw [hID, hid]; exact Nat.mod_eq_of_lt hidlt
    have e3 : (pdu.SerializeTo P []).1.h.Status % 4294967296
        = (pdu.SerializeTo P []).1.h.Status := by
      rw [hStatus]; exact Nat.mod_eq_of_lt hst
    have e4 : (pdu.SerializeTo P []).1.h.Seq % 4294967296 = (pdu.SerializeTo P []).1.h.Seq := by
      rw [hSeq]; exact Nat.mod_eq_of_lt hsq
    rw [e1, e2, e3, e4]
  obtain ⟨_, hbody, hlen16⟩ := DecodeHeader_ok _ _ _ hhdr
  have hge : 16 ≤ (pdu.SerializeTo P []).1.h.Len := by rw [hLen]; omega
  have havail : (pdu.SerializeTo P []).1.h.Len ≤ (pdu.SerializeTo P []).2.length := by
    rw [hOut]; simp
  rw [Decode_of_available P _ _ _ hhdr hge havail, ← hbody]
  have htake : List.take ((pdu.SerializeTo P []).1.h.Len - 16) (Codec.body P pdu)
      = Codec.body P pdu := by
    rw [hLen]
    exact List.take_of_length_le (by omega)
  have hdrop : List.drop (pdu.SerializeTo P []).1.h.Len (pdu.SerializeTo P []).2 = [] := by
    apply List.drop_of_length_le
    rw [hOut]; simp
  rw [htake, hdrop,
    switch_typeOfID P _ _ _ e he (by rw [hID, hid])]
  have hlist : (e.2 (pdu.SerializeTo P []).1.h).FieldList = pdu.l := by
    rw [hl]; exact hl2
  have hshell : (e.2 (pdu.SerializeTo P []).1.h).Setup fdec pdu.t =
      ⟨(pdu.SerializeTo P []).1.h, pdu.l, fdec, pdu.t⟩ := by
    have hl3 : (e.2 (pdu.SerializeTo P []).1.h).l = pdu.l := hlist
    simp only [Codec.Setup, hh2, hl3]
  have hfields : DecodeFields P (e.2 (pdu.SerializeTo P []).1.h) (Codec.body P pdu) =
      .ok ⟨(pdu.SerializeTo P []).1.h, pdu.l, fdec, pdu.t⟩ := by
    unfold DecodeFields
    simp only [hlist, hdec, DecodeTLV_tlvBytes pdu.t htnd htval, hshell]
  unfold Decode.fields
  rw [hfields]

/-- An instance of `Decode_SerializeTo_dispatched`: a GenericNACK that carries
one TLV entry. -/
theorem Decode_SerializeTo_GenericNACK :
    Decode examplePkg
      ((Codec.mk ⟨0, GenericNACKID, 0, 7⟩ [] []
          [(0x0005, ⟨0x0005, [0x01]⟩)]).SerializeTo examplePkg []).2 =
      ⟨some ⟨⟨21, GenericNACKID, 0, 7⟩, [], [], [(0x0005, ⟨0x0005, [0x01]⟩)]⟩,
        some ⟨21, GenericNACKID, 0, 7⟩, some [0x00, 0x05, 0x00, 0x01, 0x01], none, []⟩ :=
  Decode_SerializeTo_dispatched examplePkg
    (Codec.mk ⟨0, GenericNACKID, 0, 7⟩ [] [] [(0x0005, ⟨0x0005, [0x01]⟩)])
    (GenericNACKID, newGenericNACK) (by simp [typeOfID]) rfl rfl (by decide) (by decide)
    (by decide) (by decide) (by decide) (by decide) (by decide) [] rfl

/-! ## `Tag.String` is injective -/

theorem Tag_cases_names_long : ∀ c ∈ pdutlv.Tag.cases, 4 < c.2.data.length := by
  decide

theorem Tag_cases_names_distinct :
    ∀ c1 ∈ pdutlv.Tag.cases, ∀ c2 ∈ pdutlv.Tag.cases, c1.2 = c2.2 → c1.1 = c2.1 := by
  decide

theorem Tag_Hex_data (t : pdutlv.Tag) :
    (pdutlv.Tag.Hex t).data =
      [pdutlv.hexDigit (t.val / 4096), pdutlv.hexDigit (t.val / 256),
       pdutlv.hexDigit (t.val / 16), pdutlv.hexDigit t.val] := by
  have ht := t.isLt
  simp only [pdutlv.Tag.Hex, PutUint16, pdutlv.hexChars, byte, pdutlv.hexDigit]
  have e1 : t.val % 65536 / 256 % 256 / 16 % 16 = t.val / 4096 % 16 := by omega
  have e2 : t.val % 65536 / 256 % 256 % 16 % 16 = t.val / 256 % 16 := by omega
  have e3 : t.val % 65536 % 256 / 16 % 16 = t.val / 16 % 16 := by omega
  have e4 : t.val % 65536 % 256 % 16 % 16 = t.val % 16 := by omega
  rw [e1, e2, e3, e4]

theorem hexDigit_inj_lt : ∀ a < 16, ∀ b < 16,
    pdutlv.hexDigit a = pdutlv.hexDigit b → a = b := by
  decide

theorem hexDigit_inj (a b : Nat) (h : pdutlv.hexDigit a = pdutlv.hexDigit b) :
    a % 16 = b % 16 := by
  have ha : a % 16 < 16 := Nat.mod_lt _ (by decide)
  have hb : b % 16 < 16 := Nat.mod_lt _ (by decide)
  apply hexDigit_inj_lt _ ha _ hb
  have e : ∀ n, pdutlv.hexDigit (n % 16) = pdutlv.hexDigit n := by
    intro n
    simp [pdutlv.hexDigit]
  rw [e, e]
  exact h

theorem Tag_Hex_inj (t1 t2 : pdutlv.Tag) (h : pdutlv.Tag.Hex t1 = pdutlv.Tag.Hex t2) :
    t1 = t2 := by
  have hd : (pdutlv.Tag.Hex t1).data = (pdutlv.Tag.Hex t2).data := by rw [h]
  rw [Tag_Hex_data, Tag_Hex_data] at hd
  simp only [List.cons.injEq, and_true] at hd
  obtain ⟨h1, h2, h3, h4⟩ := hd
  have g1 := hexDigit_inj _ _ h1
  have g2 := hexDigit_inj _ _ h2
  have g3 := hexDigit_inj _ _ h3
  have g4 := hexDigit_inj _ _ h4
  have l1 := t1.isLt
  have l2 := t2.isLt
  apply Fin.ext
  omega

/-- C21: `Tag.String` is injective over all 65536 tag values: two different
tags are never rendered as the same string. The strings of the 43 cases are
pairwise different and longer than four characters, and the default case
renders a tag as its four hexadecimal digits, which determine the tag. -/
theorem Tag_String_injective (t1 t2 : pdutlv.Tag)
    (h : pdutlv.Tag.String t1 = pdutlv.Tag.String t2) : t1 = t2 := by
  unfold pdutlv.Tag.String at h
  cases h1 : pdutlv.Tag.cases.find? (fun c => c.1 = t1) with
  | none =>
      cases h2 : pdutlv.Tag.cases.find? (fun c => c.1 = t2) with
      | none =>
          rw [h1, h2] at h
          exact Tag_Hex_inj t1 t2 h
      | some c2 =>
          rw [h1, h2] at h
          have hlen := Tag_cases_names_long c2 (List.mem_of_find?_eq_some h2)
          have hd : (pdutlv.Tag.Hex t1).data = c2.2.data := by simp only at h; rw [h]
          rw [← hd, Tag_Hex_data] at hlen
          simp at hlen
  | some c1 =>
      have hm1 := List.mem_of_find?_eq_some h1
      have hp1 : c1.1 = t1 := by simpa using List.find?_some h1
      cases h2 : pdutlv.Tag.cases.find? (fun c => c.1 = t2) with
      | none =>
          rw [h1, h2] at h
          have hlen := Tag_cases_names_long c1 hm1
          have hd : c1.2.data = (pdutlv.Tag.Hex t2).data := by simp only at h; rw [h]
          rw [hd, Tag_Hex_data] at hlen
          simp at hlen
      | some c2 =>
          rw [h1, h2] at h
          have hm2 := List.mem_of_find?_eq_some h2
          have hp2 : c2.1 = t2 := by simpa using List.find?_some h2
          rw [← hp1, ← hp2]
          exact Tag_cases_names_distinct c1 hm1 c2 hm2 h

/-- Witness of `Tag_String_injective`: the tag 0x020B is the only tag rendered
as "destination_port " and the tag 0x9999 the only one rendered as "9999". -/
theorem Tag_String_injective_witness :
    pdutlv.Tag.String pdutlv.TagDestinationPort = pdutlv.Tag.String 0x020B ∧
    pdutlv.TagDestinationPort = (0x020B : pdutlv.Tag) ∧
    pdutlv.Tag.String 0x9999 = "9999" :=
  ⟨rfl, Tag_String_injective pdutlv.TagDestinationPort 0x020B rfl, by decide⟩

/-! ## Decoding: the declared length -/

theorem readBody_bodySize (P : FieldPkg) (header : Header) (r1 : List Byte) :
    Decode.readBody P header r1 =
      Decode.afterRead P header (ReadFull r1 (Decode.bodySize header)) := rfl

/-- For a header with `16 <= CommandLength` the number of body octets that
`Decode` requests is `CommandLength - 16`: the `uint32` subtraction does not
wrap. -/
theorem bodySize_of_ge (header : Header) (hge : 16 ≤ header.Len)
    (hlt : header.Len < 4294967296) : Decode.bodySize header = header.Len - 16 := by
  have h16 : HeaderLen = 16 := rfl
  unfold Decode.bodySize
  rw [h16]
  omega

theorem bodySize_of_lt (header : Header) (hlt : header.Len < 16) :
    Decode.bodySize header = header.Len + 4294967280 := by
  have h16 : HeaderLen = 16 := rfl
  unfold Decode.bodySize
  rw [h16]
  omega

/-- For a header with `CommandLength < 16` that the header decoder has
returned, from a source that holds fewer than 4294967280 further octets: the
code of `Decode` has no check of its own. The `uint32` subtraction wraps,
`CommandLength + 4294967280` body octets are requested, the source is drained
by `io.ReadFull`, and the error returned is the one of the short read. Whether
such a header is ever returned is decided by `DecodeHeader`, which is modelled
from the spec. -/
theorem Decode_small_length (P : FieldPkg) (r : List Byte) (header : Header) (r1 : List Byte)
    (hh : DecodeHeader r = .ok (header, r1)) (hlen : header.Len < 16)
    (hr1 : r1.length < 4294967280) :
    Decode.bodySize header = header.Len + 4294967280 ∧
    (Decode P r).err = some (if r1.length = 0 then Error.EOF else Error.ErrUnexpectedEOF) ∧
    (Decode P r).decoded = none ∧
    (Decode P r).header = some header ∧
    (Decode P r).rest = [] := by
  have hn := bodySize_of_lt header hlen
  have hle : ¬ header.Len + 4294967280 ≤ r1.length := by omega
  have hrf : ReadFull r1 (header.Len + 4294967280) =
      (r1 ++ List.replicate (header.Len + 4294967280 - r1.length) 0,
        some (if r1.length = 0 then Error.EOF else Error.ErrUnexpectedEOF), []) := by
    unfold ReadFull
    rw [if_neg hle]
  have h1 : Decode P r = Decode.readBody P header r1 := by
    unfold Decode
    rw [hh]
  rw [h1, readBody_bodySize, hn, hrf, Decode.afterRead]
  exact ⟨rfl, rfl, rfl, rfl, rfl⟩

/-- With the header decoder of the spec, which fails only on truncation: a
header that declares the length 8, followed by two octets of the stream.
`Decode` requests 4294967288 body octets (8 - 16 in `uint32`), reads the two
octets that follow, and fails with the error of the short read. -/
theorem Decode_length_below_16 (P : FieldPkg) :
    DecodeHeader [0, 0, 0, 8, 0x80, 0, 0, 0, 0, 0, 0, 0, 0, 0, 0, 1, 0xAA, 0xBB]
      = .ok (⟨8, GenericNACKID, 0, 1⟩, [0xAA, 0xBB]) ∧
    Decode.bodySize ⟨8, GenericNACKID, 0, 1⟩ = 4294967288 ∧
    (Decode P [0, 0, 0, 8, 0x80, 0, 0, 0, 0, 0, 0, 0, 0, 0, 0, 1, 0xAA, 0xBB]).err
      = some Error.ErrUnexpectedEOF ∧
    (Decode P [0, 0, 0, 8, 0x80, 0, 0, 0, 0, 0, 0, 0, 0, 0, 0, 1, 0xAA, 0xBB]).rest = [] :=
  ⟨rfl, by decide,
   (Decode_small_length P [0, 0, 0, 8, 0x80, 0, 0, 0, 0, 0, 0, 0, 0, 0, 0, 1, 0xAA, 0xBB]
      ⟨8, GenericNACKID, 0, 1⟩ [0xAA, 0xBB] rfl (by decide) (by decide)).2.1,
   (Decode_small_length P [0, 0, 0, 8, 0x80, 0, 0, 0, 0, 0, 0, 0, 0, 0, 0, 1, 0xAA, 0xBB]
      ⟨8, GenericNACKID, 0, 1⟩ [0xAA, 0xBB] rfl (by decide) (by decide)).2.2.2.2⟩

/-- For every header decoded from the source with `16 <= CommandLength`, the
number of body octets requested is `CommandLength - 16`, and with that many
octets available `Decode` reads exactly them. -/
theorem Decode_body_size (P : FieldPkg) (r : List Byte) (header : Header) (r1 : List Byte)
    (hh : DecodeHeader r = .ok (header, r1)) (hge : 16 ≤ header.Len)
    (havail : header.Len ≤ r.length) :
    Decode.bodySize header = header.Len - 16 ∧
    (Decode P r).raw.map List.length = some (header.Len - 16) ∧
    (Decode P r).rest = r.drop header.Len := by
  obtain ⟨hlt, hr1, hlen1⟩ := DecodeHeader_ok r header r1 hh
  refine ⟨bodySize_of_ge header hge hlt, ?_, ?_⟩
  · rw [Decode_of_available P r header r1 hh hge havail]
    have hraw : (Decode.switch P header ((r.drop 16).take (header.Len - 16))
        (r.drop header.Len)).raw = some ((r.drop 16).take (header.Len - 16)) := by
      rcases switch_cases P header ((r.drop 16).take (header.Len - 16)) (r.drop header.Len)
        with h | ⟨shell, h⟩ | h
      · rw [h]
      · rw [h]; unfold Decode.fields; cases DecodeFields P shell _ <;> rfl
      · rw [h]
    rw [hraw]
    simp only [Option.map_some', List.length_take, List.length_drop]
    congr 1
    omega
  · rw [Decode_of_available P r header r1 hh hge havail]
    rcases switch_cases P header ((r.drop 16).take (header.Len - 16)) (r.drop header.Len)
      with h | ⟨shell, h⟩ | h
    · rw [h]
    · rw [h]; unfold Decode.fields; cases DecodeFields P shell _ <;> rfl
    · rw [h]

end pdu

end Smpp
